import Mathlib

set_option maxHeartbeats 1000000

/-!
Shallow embedding of the `cse202-battleship` repository
(`src/board.py`, `src/agent.py`, `src/data_types.py`) and proofs about it.

Conventions:
* Python `numpy` grids become functions `Nat × Nat → Int`; the `SHIP_CELLS`
  dictionary becomes a function `Int → Int` (Python's class-level dict is
  threaded explicitly, which makes its sharing across board instances
  visible).
* Python exceptions (`raise ValueError`, numpy `IndexError`) become
  `Except String`.
* Unbounded `while` loops (the BFS in `sink`) take an explicit fuel
  argument; theorems about them quantify over sufficient fuel.
-/

namespace Battleship

/-- from `data_types.py`: `class AttackResult(Enum)`. -/
inductive AttackResult where
  | HIT
  | MISS
  | SUNK
  | INVALID
deriving DecidableEq, Repr

/-- from `data_types.py`: `@dataclass class Ship` (positions as `(x, y)` pairs). -/
structure Ship where
  length : Nat
  breadth : Nat
  count : Nat
  positions : List (Nat × Nat)
deriving DecidableEq, Repr

/-- from `data_types.py`: `@dataclass class BoardConfig`. -/
structure BoardConfig where
  n : Nat
  ships : List Ship
deriving DecidableEq, Repr

/-- `BattleshipBoard.CELL_HIT = -1`. -/
def CELL_HIT : Int := -1

/-- `BattleshipBoard.CELL_EMPTY = 0`. -/
def CELL_EMPTY : Int := 0

/-- The mutable state of a `BattleshipBoard`: the numpy grid plus the
    `SHIP_CELLS` dictionary it reads and writes. -/
structure BoardState where
  n : Nat
  grid : Nat × Nat → Int
  shipCells : Int → Int

/-- The in-range core of `BattleshipBoard.attack` (`board.py`, branch on the
    cell value): empty cell → MISS and mark struck; already-struck cell → HIT
    with no state change; ship cell → mark struck, decrement that ship's
    `SHIP_CELLS` entry, SUNK when it reaches zero else HIT; the final
    `return AttackResult.INVALID` is the fall-through branch. -/
def attackCell (st : BoardState) (p : Nat × Nat) : AttackResult × BoardState :=
  if st.grid p = CELL_EMPTY then
    (.MISS, { st with grid := Function.update st.grid p CELL_HIT })
  else if st.grid p = CELL_HIT then
    (.HIT, st)
  else if 0 < st.grid p then
    let ship_id := st.grid p
    let st1 : BoardState :=
      { st with grid := Function.update st.grid p CELL_HIT,
                shipCells := Function.update st.shipCells ship_id (st.shipCells ship_id - 1) }
    if st1.shipCells ship_id = 0 then (.SUNK, st1) else (.HIT, st1)
  else
    (.INVALID, st)

/-- numpy integer indexing into an axis of size `n`: indices in `[-n, n)` are
    accepted (negative ones wrap around), anything else raises `IndexError`. -/
def npIndex (n : Nat) (i : Int) : Except String Nat :=
  if i < -(n : Int) ∨ (n : Int) ≤ i then .error "IndexError"
  else if i < 0 then .ok (i + n).toNat
  else .ok i.toNat

/-- `BattleshipBoard.attack(r, c)` as called from outside: the numpy indexing
    `self.board[r, c]` resolves (or raises) first, then the branch logic of
    `attackCell` runs. -/
def attack (st : BoardState) (r c : Int) : Except String (AttackResult × BoardState) := do
  let r1 ← npIndex st.n r
  let c1 ← npIndex st.n c
  pure (attackCell st (r1, c1))

/-- `self.board_config.ships.index(ship)`: index of the first ship equal to
    `s` in the list. -/
def idxOf (ships : List Ship) (s : Ship) : Nat := ships.indexOf s

/-- One update of the running-minimum bookkeeping in `BattleshipBoard.__init__`
    (`if v < min: min = v; (append idx if list empty else overwrite slot 0)
    elif v == min: append idx`); `none` plays the role of `np.inf`. -/
def trackMin (cur : Option Nat) (ids : List Nat) (v idx : Nat) : Option Nat × List Nat :=
  match cur with
  | none => (some v, if ids.isEmpty then ids ++ [idx] else ids.set 0 idx)
  | some m =>
    if v < m then (some v, if ids.isEmpty then ids ++ [idx] else ids.set 0 idx)
    else if v = m then (some m, ids ++ [idx])
    else (some m, ids)

/-- Accumulator of the first validation loop of `BattleshipBoard.__init__`. -/
structure InitScan where
  totalArea : Nat
  minL : Option Nat
  minB : Option Nat
  minLId : List Nat
  minBId : List Nat
deriving Repr

/-- Body of the first validation loop of `BattleshipBoard.__init__`: per-ship
    count check, ship-area accumulation, and min-length / min-breadth
    bookkeeping via `trackMin`. -/
def scanStep (ships : List Ship) (acc : InitScan) (ship : Ship) : Except String InitScan :=
  if ship.count ≠ ship.positions.length then
    .error "Ship count does not match with number of ships"
  else
    let idx := idxOf ships ship
    let lm := trackMin acc.minL acc.minLId ship.length idx
    let bm := trackMin acc.minB acc.minBId ship.breadth idx
    .ok { totalArea := acc.totalArea + ship.length * ship.breadth * ship.count,
          minL := lm.1, minLId := lm.2, minB := bm.1, minBId := bm.2 }

/-- The first validation loop of `BattleshipBoard.__init__`. -/
def scanShips (ships : List Ship) : Except String InitScan :=
  ships.foldlM (scanStep ships) ⟨0, none, none, [], []⟩

/-- Mutable state of the placement loop of `BattleshipBoard.__init__`:
    the grid, the shared `SHIP_CELLS` dictionary, and the running `id`. -/
structure PlaceState where
  grid : Nat × Nat → Int
  shipCells : Int → Int
  id : Nat

/-- Innermost cell placement of `BattleshipBoard.__init__`: bound check,
    overlap check, then write the ship id into the grid. -/
def placeCell (n : Nat) (idv : Nat) (x y i j : Nat) (grid : Nat × Nat → Int) :
    Except String (Nat × Nat → Int) :=
  if x + i < n ∧ y + j < n then
    if grid (x + i, y + j) ≠ 0 then
      .error "Ship (id: \x7bid\x7d) overlaps with Ship (id: \x7bself.board[x + i, y + j]\x7d)"
    else
      .ok (Function.update grid (x + i, y + j) (idv : Int))
  else
    .error "Ship (id: \x7bid\x7d) is out of bounds"

/-- Placement of one ship instance at `pos`: bump `id`, record its cell count
    in `SHIP_CELLS`, then write each of its `length × breadth` cells. -/
def placeShipAt (n : Nat) (ship : Ship) (ps : PlaceState) (pos : Nat × Nat) :
    Except String PlaceState := do
  let idv := ps.id + 1
  let cells := Function.update ps.shipCells (idv : Int) ((ship.length * ship.breadth : Nat) : Int)
  let grid ← (List.range ship.length).foldlM
    (fun g i => (List.range ship.breadth).foldlM
      (fun g2 j => placeCell n idv pos.1 pos.2 i j g2) g)
    ps.grid
  pure { grid := grid, shipCells := cells, id := idv }

/-- The placement loop of `BattleshipBoard.__init__` over every ship type and
    every declared position. -/
def placeShips (n : Nat) (ships : List Ship) (ps : PlaceState) : Except String PlaceState :=
  ships.foldlM (fun acc ship => ship.positions.foldlM (placeShipAt n ship) acc) ps

/-- The `SHIP_CELLS` class attribute starts out as the empty dict `{}`
    (reads of absent keys do not occur on the paths modelled here). -/
def emptyDict : Int → Int := fun _ => 0

/-- `BattleshipBoard.__init__(board_config)`.  `shared` is the incoming value
    of the class-level `SHIP_CELLS` dictionary, which the constructor mutates
    in place (it is shared by every `BattleshipBoard` instance). -/
def boardInit (cfg : BoardConfig) (shared : Int → Int) : Except String BoardState := do
  let scan ← scanShips cfg.ships
  if scan.minLId.any (fun l => !(scan.minBId.contains l)) then
    throw "No ship type with both smallest length and smallest breath"
  else if cfg.n * cfg.n < scan.totalArea then
    throw "Ships do not all fit on board"
  else do
    let ps ← placeShips cfg.n cfg.ships ⟨fun _ => 0, shared, 0⟩
    pure { n := cfg.n, grid := ps.grid, shipCells := ps.shipCells }

/-- State of a running agent game: the ground-truth board behind the attack
    proxy, the agent's own `self.board` visited mask, the move and sunk
    counters, and a spy log of every attack call the agent issues (the
    counting wrapper the spec's test plan asks for). -/
structure AgentState where
  gt : BoardState
  visited : Nat × Nat → Bool
  moves : Nat
  shipsSunk : Nat
  trace : List (Nat × Nat)

/-- One `self.agent_board.attack(r, c)` call from an agent on an in-range
    cell, recorded in the spy log. -/
def agentAttack (s : AgentState) (p : Nat × Nat) : AttackResult × AgentState :=
  let r := attackCell s.gt p
  (r.1, { s with gt := r.2, trace := s.trace ++ [p] })

/-- The names bound at module level by the import statements of `agent.py`
    (`from abc import ABC, abstractmethod`, `from typing import Tuple`,
    `import numpy as np`, `from board import BattleshipAgentBoard`,
    `from data_types import AttackResult`).  Neither `deque` nor `random`
    is ever imported or otherwise bound in the module. -/
def agentModuleNames : List String :=
  ["ABC", "abstractmethod", "Tuple", "np", "BattleshipAgentBoard", "AttackResult"]

/-- Python name resolution against a module namespace: using an identifier
    that was never bound raises `NameError` at the point of use. -/
def pyName (names : List String) (x : String) : Except String Unit :=
  if x ∈ names then .ok () else .error ("NameError: name " ++ x ++ " is not defined")

/-- `OptimalAgent.__init__`: `step_size = min(ship.length * ship.breadth for
    ship in ships)`; `none` when the ship list is empty (where Python's `min`
    raises). -/
def stepSizeOf (ships : List Ship) : Option Nat :=
  (ships.map (fun s => s.length * s.breadth)).min?

/-- Python `range(0, stop, step)` for `1 ≤ step`. -/
def rangeStep (stop step : Nat) : List Nat :=
  (List.range ((stop + step - 1) / step)).map (· * step)

/-- The cells enumerated by the triple loop of `OptimalAgent.seek`
    (`r` outer, `c` inner with stride `large_side`, then the diagonal offset
    `x` with stride `small_side`, candidate cell `(r + x, c + x)`), before
    the bounds/visited guard. -/
def seekCells (n largeSide smallSide : Nat) : List (Nat × Nat) :=
  (rangeStep n largeSide).flatMap (fun r =>
    (rangeStep n largeSide).flatMap (fun c =>
      (rangeStep largeSide smallSide).map (fun x => (r + x, c + x))))

/-- The four neighbour candidates `[(i+1,j), (i-1,j), (i,j+1), (i,j-1)]` of a
    popped queue cell, as integers (Python's `i - 1` may be negative). -/
def nbrs (p : Nat × Nat) : List (Int × Int) :=
  [((p.1 : Int) + 1, (p.2 : Int)), ((p.1 : Int) - 1, (p.2 : Int)),
   ((p.1 : Int), (p.2 : Int) + 1), ((p.1 : Int), (p.2 : Int) - 1)]

/-- Processing of one neighbour inside `OptimalAgent.sink`'s loop body:
    bounds-and-visited guard, attack, move counter, visited mark, enqueue on
    HIT, sunk counter on SUNK. -/
def sinkVisit (n : Nat) (acc : List (Nat × Nat) × AgentState) (nb : Int × Int) :
    List (Nat × Nat) × AgentState :=
  if 0 ≤ nb.1 ∧ nb.1 < (n : Int) ∧ 0 ≤ nb.2 ∧ nb.2 < (n : Int)
      ∧ acc.2.visited (nb.1.toNat, nb.2.toNat) = false then
    let p := (nb.1.toNat, nb.2.toNat)
    let r := agentAttack acc.2 p
    let s2 : AgentState :=
      { r.2 with moves := r.2.moves + 1, visited := Function.update r.2.visited p true }
    if r.1 = .HIT then (acc.1 ++ [p], s2)
    else if r.1 = .SUNK then (acc.1, { s2 with shipsSunk := s2.shipsSunk + 1 })
    else (acc.1, s2)
  else acc

/-- The `while queue:` BFS of `OptimalAgent.sink`'s body — everything after
    its first statement: FIFO queue seeded with the hit cell, fuel standing
    in for the unbounded loop.  In the source this loop is unreachable: the
    preceding statement `queue = deque([(ar, ac)])` fails to resolve the
    name `deque` (see `optimalSink`, the faithful entry point). -/
def sinkLoop (n : Nat) : Nat → List (Nat × Nat) → AgentState → AgentState
  | 0, _, s => s
  | _ + 1, [], s => s
  | fuel + 1, q :: qs, s =>
    let step := (nbrs q).foldl (sinkVisit n) (qs, s)
    sinkLoop n fuel step.1 step.2

/-- `OptimalAgent.sink` as the source runs it: the first statement
    `queue = deque([(ar, ac)])` resolves the name `deque` in `agent.py`'s
    module namespace — which raises `NameError`, since the module never
    imports `deque` — and only on success would the BFS of the remainder of
    the body (`sinkLoop`) run. -/
def optimalSink (n fuel : Nat) (start : Nat × Nat) (s : AgentState) :
    Except String AgentState :=
  (pyName agentModuleNames "deque").map (fun _ => sinkLoop n fuel [start] s)

/-- The body of `OptimalAgent.seek` over the flattened list of lattice
    cells: bounds/visited guard, attack, counters, `self.sink` on HIT, and
    the early `return True` as soon as `ships_sunk == total_ships`.  A call
    to `sink` raises `NameError` (its `deque` lookup fails), and the
    exception escapes the loop uncaught — the mutations made on the
    instance up to that point persist, so an `.error` carries the message
    together with the state at the moment the exception propagates. -/
def seekLoopE (n totalShips fuel : Nat) :
    List (Nat × Nat) → AgentState → Except (String × AgentState) (Bool × AgentState)
  | [], s => .ok (false, s)
  | p :: rest, s =>
    if p.1 < n ∧ p.2 < n ∧ s.visited p = false then
      let r := agentAttack s p
      let s2 : AgentState :=
        { r.2 with moves := r.2.moves + 1, visited := Function.update r.2.visited p true }
      if r.1 = .HIT then
        match optimalSink n fuel p s2 with
        | .error e => .error (e, s2)
        | .ok s3 =>
          if s3.shipsSunk = totalShips then .ok (true, s3)
          else seekLoopE n totalShips fuel rest s3
      else
        if s2.shipsSunk = totalShips then .ok (true, s2)
        else seekLoopE n totalShips fuel rest s2
    else seekLoopE n totalShips fuel rest s

/-- `OptimalAgent.seek`: `large_side = max(step_size, step_size)` and
    `small_side = min(step_size, step_size)` exactly as in the source, then
    the triple loop over `seekCells`. -/
def optimalSeekE (n totalShips stepSize fuel : Nat) (s : AgentState) :
    Except (String × AgentState) (Bool × AgentState) :=
  seekLoopE n totalShips fuel (seekCells n (max stepSize stepSize) (min stepSize stepSize)) s

/-- `OptimalAgent.start_game`: there is no `try`/`except`, so an exception
    raised inside `seek` propagates to the caller; otherwise the result
    tuple is built from `seek`'s Boolean. -/
def optimalStartGameE (n totalShips stepSize fuel : Nat) (s : AgentState) :
    Except (String × AgentState) ((Int × String) × AgentState) :=
  match optimalSeekE n totalShips stepSize fuel s with
  | .error e => .error e
  | .ok r =>
    if r.1 then .ok (((r.2.moves : Int), ""), r.2)
    else .ok ((-1, "Unknown Error: Should not have happened"), r.2)

/-- The agent state a `seek` call leaves behind, whether it returned or was
    aborted by a propagating exception (Python mutations persist either
    way). -/
def seekResultState (e : Except (String × AgentState) (Bool × AgentState)) : AgentState :=
  match e with
  | .error r => r.2
  | .ok r => r.2


/-- Row-major enumeration of all grid cells (`for r in range(n): for c in
    range(n):`). -/
def rowMajor (n : Nat) : List (Nat × Nat) :=
  (List.range n).flatMap (fun r => (List.range n).map (fun c => (r, c)))

/-- `total_ships = sum(ship.count for ship in ships)`. -/
def totalShipsOf (ships : List Ship) : Nat :=
  (ships.map (fun s => s.count)).sum

/-- The loop of `BruteForceAgent.start_game`: attack each cell in row-major
    order; INVALID aborts with `(-1, "INVALID ERROR")`; SUNK bumps the sunk
    counter; the game returns `(moves, "")` as soon as the counter reaches
    the total; running off the end returns the unknown-error result. -/
def bruteLoop (total : Nat) : List (Nat × Nat) → BoardState → Nat → Nat → (Int × String) × BoardState
  | [], gt, _, _ => ((-1, "Unknown Error: Should not have happened"), gt)
  | p :: rest, gt, sunk, moves =>
    let r := attackCell gt p
    let moves1 := moves + 1
    if r.1 = .INVALID then ((-1, "INVALID ERROR"), r.2)
    else
      let sunk1 := if r.1 = .SUNK then sunk + 1 else sunk
      if sunk1 = total then (((moves1 : Int), ""), r.2)
      else bruteLoop total rest r.2 sunk1 moves1

/-- `BruteForceAgent.start_game` on a ground-truth board built from `cfg`. -/
def bruteForceStart (cfg : BoardConfig) (gt : BoardState) : (Int × String) × BoardState :=
  bruteLoop (totalShipsOf cfg.ships) (rowMajor cfg.n) gt 0 0

/-- Modelled from the spec (for comparison with the code): the first target
    type whose dimensions are simultaneously minimal on both axes. -/
def specMinShip (ships : List Ship) : Option Ship :=
  ships.find? (fun s =>
    ships.all (fun t => decide (s.length ≤ t.length) && decide (s.breadth ≤ t.breadth)))

/-- Modelled from the spec: `small_side = min(L, B)` and
    `large_side = max(L, B)` of the componentwise-minimal target type. -/
def specSides (ships : List Ship) : Option (Nat × Nat) :=
  (specMinShip ships).map (fun s => (min s.length s.breadth, max s.length s.breadth))

/-- A target type achieving the minimum on both axes simultaneously exists:
    the condition the constructor's validation is meant to test. -/
def hasMinimalType (ships : List Ship) : Bool :=
  ships.any (fun s =>
    ships.all (fun t => decide (s.length ≤ t.length) && decide (s.breadth ≤ t.breadth)))

/-- The cell set of an axis-aligned `l × b` rectangle anchored at `(x, y)`
    (the footprint the constructor's placement loop writes for one ship). -/
def inRect (x y l b : Nat) (p : Nat × Nat) : Prop :=
  x ≤ p.1 ∧ p.1 < x + l ∧ y ≤ p.2 ∧ p.2 < y + b

instance (x y l b : Nat) (p : Nat × Nat) : Decidable (inRect x y l b p) := by
  unfold inRect; infer_instance

/-- All cells of the `n × n` grid, as a finite set. -/
def gridCells (n : Nat) : Finset (Nat × Nat) := Finset.range n ×ˢ Finset.range n

/-- The in-bounds cells of the `(x, y, l, b)` rectangle. -/
def rectCells (n x y l b : Nat) : Finset (Nat × Nat) :=
  (gridCells n).filter (inRect x y l b)

/-- 4-neighbour adjacency of grid cells (the connectivity `sink` explores). -/
def AdjCell (u v : Nat × Nat) : Prop :=
  (u.1 = v.1 ∧ (u.2 = v.2 + 1 ∨ v.2 = u.2 + 1)) ∨
  (u.2 = v.2 ∧ (u.1 = v.1 + 1 ∨ v.1 = u.1 + 1))

/-- One step of the flood-fill frontier relation: move to a 4-neighbour that
    is a still-unvisited cell of the target region `R`. -/
def SinkStep (R : Nat × Nat → Prop) (V : Nat × Nat → Bool) (u v : Nat × Nat) : Prop :=
  AdjCell u v ∧ R v ∧ V v = false

/-- A chain of `SinkStep`s: the cells of `R` still reachable from `u`
    through unvisited cells. -/
def SinkChain (R : Nat × Nat → Prop) (V : Nat × Nat → Bool) (u v : Nat × Nat) : Prop :=
  Relation.ReflTransGen (SinkStep R V) u v

/-- Number of yet-unvisited cells of the `n × n` grid: the strictly
    decreasing quantity that bounds every agent loop. -/
def unvisitedCount (n : Nat) (s : AgentState) : Nat :=
  ((gridCells n).filter (fun p => s.visited p = false)).card

/-- The spy-log invariant: no cell has been attacked twice, and every
    attacked cell is marked in the visited mask. -/
def TraceOK (s : AgentState) : Prop :=
  s.trace.Nodup ∧ ∀ p ∈ s.trace, s.visited p = true

/-- Example configuration with a single 1 × 2 target on a 4 × 4 grid (the
    spec's own example shape). -/
def cfgOneByTwo : BoardConfig := { n := 4, ships := [⟨1, 2, 1, [(0, 0)]⟩] }

/-- The same single smallest (1 × 2) target on a 4 × 4 grid, placed at
    `(1, 1)`–`(1, 2)`: a legal placement of the minimal target that the
    seek lattice (stride `step_size = 2` on both axes) never touches. -/
def cfgMissed : BoardConfig := { n := 4, ships := [⟨1, 2, 1, [(1, 1)]⟩] }

/-- Ship types (3,2), (3,3), (2,2): the type (2,2) is componentwise minimal,
    yet the constructor's index bookkeeping keeps a stale index for (3,3). -/
def cfgStaleMin : BoardConfig :=
  { n := 10, ships := [⟨3, 2, 1, [(0, 0)]⟩, ⟨3, 3, 1, [(4, 0)]⟩, ⟨2, 2, 1, [(0, 4)]⟩] }

/-- First board of the shared-`SHIP_CELLS` scenario: one 1 × 3 ship. -/
def cfgShareA : BoardConfig := { n := 3, ships := [⟨1, 3, 1, [(0, 0)]⟩] }

/-- Second board of the shared-`SHIP_CELLS` scenario: one 1 × 2 ship. -/
def cfgShareB : BoardConfig := { n := 2, ships := [⟨1, 2, 1, [(0, 0)]⟩] }

/-- Projection of a construction result onto the (shared) `SHIP_CELLS`
    dictionary it leaves behind. -/
def sharedAfter (e : Except String BoardState) : Int → Int :=
  match e with
  | .ok st => st.shipCells
  | .error _ => emptyDict

/-- A ship type of length 0: its placement loop `range(0)` writes nothing. -/
def cfgZeroLen : BoardConfig := { n := 1, ships := [⟨0, 1, 1, [(0, 0)]⟩] }

/-- Configuration with a single 1 × 1 ship at the origin of a 2 × 2 grid. -/
def cfgSolo : BoardConfig := { n := 2, ships := [⟨1, 1, 1, [(0, 0)]⟩] }

/-- The ground truth `boardInit` builds for `cfgSolo`. -/
def soloGt : BoardState :=
  { n := 2, grid := Function.update (fun _ => 0) (0, 0) 1,
    shipCells := Function.update emptyDict 1 1 }

/-- An empty 1 × 1 board (what `boardInit` builds for `{n: 1, ships: []}`). -/
def emptyOneBoard : BoardState := { n := 1, grid := fun _ => 0, shipCells := emptyDict }

/-- A freshly constructed agent on ground truth `gt`: zero counters, clear
    visited mask, empty spy log. -/
def freshAgent (gt : BoardState) : AgentState :=
  { gt := gt, visited := fun _ => false, moves := 0, shipsSunk := 0, trace := [] }

/-- `RandomAgent.__init__` as the source runs it: `super().__init__` stores
    the board view and the zero visited grid (`freshAgent`) and
    `self.seed = seed` stores the seed, then `random.seed(self.seed)`
    resolves the name `random` in `agent.py`'s module namespace — which
    raises `NameError`, since the module never imports `random`.  Only on
    success would the comprehension build the cell list (`rowMajor n`) and
    a second `random` lookup shuffle it; no `RandomAgent` instance is ever
    constructed, so its `seek`, `sink` and `start_game` bodies are dead
    code. -/
def randomAgentInit (n : Nat) (gt : BoardState) (seed : Nat) :
    Except String (AgentState × List (Nat × Nat)) := do
  let st := freshAgent gt
  _ ← pyName agentModuleNames "random"
  let cells := rowMajor n
  _ ← pyName agentModuleNames "random"
  pure (st, cells)

/-- A small board used to witness the attack-resolution theorem: one 1 × 2
    ship (id 1) occupying `(0,0)` and `(0,1)` of a 2 × 2 grid, with `(1,0)`
    already struck as a miss. -/
def witnessBoard : BoardState :=
  { n := 2,
    grid := fun p => if p = (0, 0) ∨ p = (0, 1) then 1 else if p = (1, 0) then -1 else 0,
    shipCells := fun k => if k = 1 then 2 else 0 }

/-- Cells of the `n × n` grid currently holding ship id `k`. -/
def cellsOf (n : Nat) (g : Nat × Nat → Int) (k : Nat) : Finset (Nat × Nat) :=
  (gridCells n).filter (fun p => g p = (k : Int))

/-- Number of ship ids in `1..K` with no cells left on the grid — the ids
    whose last cell has been struck (each one reported exactly one SUNK). -/
def destroyedCount (n : Nat) (g : Nat × Nat → Int) (K : Nat) : Nat :=
  ((Finset.Icc 1 K).filter (fun k => (cellsOf n g k).card = 0)).card

/-- State of a freshly constructed board with `K` placed ships: cell values
    lie in `{0} ∪ [1..K]`, ship cells are in bounds, and each id occupies a
    nonempty cell set whose size `SHIP_CELLS` records. -/
def PlacedOK (n K : Nat) (g : Nat × Nat → Int) (d : Int → Int) : Prop :=
  (∀ p, 0 ≤ g p ∧ g p ≤ (K : Int))
  ∧ (∀ p, g p ≠ 0 → p.1 < n ∧ p.2 < n)
  ∧ (∀ k : Nat, 1 ≤ k → k ≤ K →
      d (k : Int) = ((cellsOf n g k).card : Int) ∧ 1 ≤ (cellsOf n g k).card)

/-- Loop invariant of the brute-force scan over the remaining cell list. -/
def BruteInv (n K : Nat) (gt : BoardState) (cells : List (Nat × Nat)) (sunk : Nat) : Prop :=
  cells.Nodup
  ∧ (∀ p, -1 ≤ gt.grid p ∧ gt.grid p ≤ (K : Int))
  ∧ (∀ p, gt.grid p ≠ 0 → gt.grid p ≠ -1 → p.1 < n ∧ p.2 < n)
  ∧ (∀ k : Nat, 1 ≤ k → k ≤ K →
      gt.shipCells (k : Int) = ((cellsOf n gt.grid k).card : Int))
  ∧ (∀ p, 0 < gt.grid p → p ∈ cells)
  ∧ (∀ p ∈ cells, gt.grid p ≠ -1)
  ∧ sunk = destroyedCount n gt.grid K

/-- Loop invariant of `OptimalAgent.sink` between iterations, on a board
    holding a single `l × b` target anchored at `(x, y)` (ship id 1):
    the ground-truth grid mirrors the visited mask (struck iff visited,
    unstruck target cells hold 1, unstruck empty cells 0), the ship's
    remaining count is its unstruck-cell count, queue cells are visited
    target cells, every unvisited target cell is reachable from a queue
    cell through unvisited target cells, and the sunk counter exceeds its
    initial value `s0` exactly when the whole target is struck. -/
def SinkLoopInv (n x y l b s0 : Nat) (q : List (Nat × Nat)) (s : AgentState) : Prop :=
  (∀ p, s.gt.grid p = if s.visited p = true then -1
      else if inRect x y l b p then 1 else 0)
  ∧ s.gt.shipCells 1 = ((l * b : Nat) : Int)
      - (((rectCells n x y l b).filter (fun p => s.visited p = true)).card : Int)
  ∧ (∀ c ∈ q, s.visited c = true ∧ inRect x y l b c)
  ∧ (∀ t, inRect x y l b t → s.visited t = false →
      ∃ c ∈ q, SinkChain (inRect x y l b) s.visited c t)
  ∧ s.shipsSunk = s0 + (if (rectCells n x y l b).filter (fun p => s.visited p = true)
      = rectCells n x y l b then 1 else 0)

/-- The same invariant while the neighbours of the popped cell `pp` are
    being processed: an unvisited target cell may instead be reachable
    from `pp` itself. -/
def SinkMid (n x y l b s0 : Nat) (pp : Nat × Nat) (q : List (Nat × Nat)) (s : AgentState) : Prop :=
  (∀ p, s.gt.grid p = if s.visited p = true then -1
      else if inRect x y l b p then 1 else 0)
  ∧ s.gt.shipCells 1 = ((l * b : Nat) : Int)
      - (((rectCells n x y l b).filter (fun p => s.visited p = true)).card : Int)
  ∧ (∀ c ∈ q, s.visited c = true ∧ inRect x y l b c)
  ∧ (∀ t, inRect x y l b t → s.visited t = false →
      ((∃ c ∈ q, SinkChain (inRect x y l b) s.visited c t)
        ∨ SinkChain (inRect x y l b) s.visited pp t))
  ∧ s.shipsSunk = s0 + (if (rectCells n x y l b).filter (fun p => s.visited p = true)
      = rectCells n x y l b then 1 else 0)

/-- Visited mask right after seek's first HIT at `(0,0)`. -/
def sinkWitnessVisited : Nat × Nat → Bool :=
  fun p => if p = ((0 : Nat), (0 : Nat)) then true else false

/-- Ground-truth grid of the 2 × 2 board with the 1 × 2 target at the
    origin, mirrored against `sinkWitnessVisited`. -/
def sinkWitnessGrid : Nat × Nat → Int :=
  fun p => if sinkWitnessVisited p = true then -1 else if inRect 0 0 1 2 p then 1 else 0

/-- Agent state right after seek's first HIT on the 1 × 2 target at the
    origin of a 2 × 2 board: `(0,0)` struck and visited, `(0,1)` still
    holding the ship, one remaining cell. -/
def sinkWitnessAgent : AgentState :=
  { gt := { n := 2, grid := sinkWitnessGrid,
            shipCells := fun j => if j = 1 then ((1 * 2 : Nat) : Int) - 1 else 0 },
    visited := sinkWitnessVisited,
    moves := 1, shipsSunk := 0, trace := [(0, 0)] }

/-- The ground truth a configuration constructs (junk board on a
    construction error; used only where construction succeeds). -/
def gtOf (cfg : BoardConfig) : BoardState :=
  match boardInit cfg emptyDict with
  | .ok st => st
  | .error _ => { n := 0, grid := fun _ => 0, shipCells := emptyDict }

/-- Whether construction succeeds (no `ValueError` raised). -/
def buildsOk (cfg : BoardConfig) : Bool :=
  match boardInit cfg emptyDict with
  | .ok _ => true
  | .error _ => false

theorem mem_rangeStep {stop step a : Nat} (hs : 1 ≤ step) :
    a ∈ rangeStep stop step ↔ step ∣ a ∧ a < stop := by
  unfold rangeStep
  simp only [List.mem_map, List.mem_range]
  constructor
  · rintro ⟨k, hk, rfl⟩
    refine ⟨⟨k, by ring⟩, ?_⟩
    have h2 : (k + 1) * step ≤ stop + step - 1 := (Nat.le_div_iff_mul_le hs).mp hk
    have h3 : (k + 1) * step = k * step + step := by ring
    omega
  · rintro ⟨⟨k, rfl⟩, hlt⟩
    refine ⟨k, ?_, by ring⟩
    have h3 : (k + 1) * step = step * k + step := by ring
    have h4 : (k + 1) * step ≤ stop + step - 1 := by omega
    exact (Nat.le_div_iff_mul_le hs).mpr h4

theorem rangeStep_self {s : Nat} (hs : 1 ≤ s) : rangeStep s s = [0] := by
  unfold rangeStep
  have h : (s + s - 1) / s = 1 := by
    apply Nat.div_eq_of_lt_le <;> omega
  rw [h]
  have h1 : List.range 1 = [0] := rfl
  rw [h1, List.map_cons, List.map_nil, Nat.zero_mul]

theorem seekCells_self {n s : Nat} (hs : 1 ≤ s) :
    seekCells n s s
      = (rangeStep n s).flatMap (fun r => (rangeStep n s).map (fun c => (r, c))) := by
  unfold seekCells
  rw [rangeStep_self hs]
  have hsing : ∀ (l : List Nat) (r : Nat),
      (l.flatMap fun c => [(r, c)]) = l.map (fun c => (r, c)) := by
    intro l r
    induction l with
    | nil => rfl
    | cons hd tl ih => simp [ih]
  simp only [List.map_cons, List.map_nil, Nat.add_zero, List.flatMap_cons, List.flatMap_nil,
    List.append_nil, List.singleton_append, hsing]

theorem mem_seekCells {n s : Nat} (hs : 1 ≤ s) {a b : Nat} :
    (a, b) ∈ seekCells n s s ↔ s ∣ a ∧ a < n ∧ s ∣ b ∧ b < n := by
  rw [seekCells_self hs]
  simp only [List.mem_flatMap, List.mem_map]
  constructor
  · rintro ⟨r, hr, c, hc, hEq⟩
    cases hEq
    have h1 := (mem_rangeStep hs).mp hr
    have h2 := (mem_rangeStep hs).mp hc
    exact ⟨h1.1, h1.2, h2.1, h2.2⟩
  · rintro ⟨ha1, ha2, hb1, hb2⟩
    exact ⟨a, (mem_rangeStep hs).mpr ⟨ha1, ha2⟩, b, (mem_rangeStep hs).mpr ⟨hb1, hb2⟩, rfl⟩

/-- C1 (counterexample): for the board with a single 1 × 2 target the spec's
    lattice parameters are `small_side = 1`, `large_side = 2`, but the code
    computes `step_size = 2` (the minimal ship area) and collapses both
    sides to it, so the cells `seek` enumerates are not those of the spec's
    diagonal formula — the spec lattice probes `(1, 1)`, the code never
    does. -/
theorem optimal_lattice_spec_mismatch :
    (stepSizeOf cfgOneByTwo.ships).map (fun st => (min st st, max st st))
        ≠ specSides cfgOneByTwo.ships
    ∧ (1, 1) ∈ seekCells cfgOneByTwo.n 2 1
    ∧ (1, 1) ∉ seekCells cfgOneByTwo.n (max 2 2) (min 2 2) := by
  refine ⟨?_, ?_, ?_⟩ <;> decide

/-- C1 (amended): at construction the search agent derives a single
    `step_size`, the smallest `length * breadth` over all ship types (not
    the side lengths of a componentwise-minimal type); `large_side` and
    `small_side` both collapse to `step_size`, the diagonal offset `x`
    takes only the value 0, and `seek` enumerates exactly the cells
    `(r, c)` with `r` and `c` multiples of `step_size` below `n`
    (`r` outer, `c` inner, row-major). -/
theorem optimal_lattice_collapsed (cfg : BoardConfig) (step : Nat)
    (hstep : stepSizeOf cfg.ships = some step) (h1 : 1 ≤ step) :
    (step ∈ cfg.ships.map (fun s => s.length * s.breadth)
      ∧ ∀ a ∈ cfg.ships.map (fun s => s.length * s.breadth), step ≤ a)
    ∧ max step step = step ∧ min step step = step
    ∧ rangeStep (max step step) (min step step) = [0]
    ∧ seekCells cfg.n (max step step) (min step step)
        = (rangeStep cfg.n step).flatMap (fun r => (rangeStep cfg.n step).map (fun c => (r, c)))
    ∧ ∀ a b : Nat, ((a, b) ∈ seekCells cfg.n (max step step) (min step step)
        ↔ step ∣ a ∧ a < cfg.n ∧ step ∣ b ∧ b < cfg.n) := by
  have hmm := List.min?_eq_some_iff'.mp hstep
  refine ⟨hmm, Nat.max_self step, Nat.min_self step, ?_, ?_, ?_⟩
  · rw [Nat.max_self, Nat.min_self]; exact rangeStep_self h1
  · rw [Nat.max_self, Nat.min_self]; exact seekCells_self h1
  · intro a b
    rw [Nat.max_self, Nat.min_self]
    exact mem_seekCells h1

/-- Witness for `optimal_lattice_collapsed` at the 1 × 2 example board. -/
theorem optimal_lattice_collapsed_witness :
    (2 ∈ cfgOneByTwo.ships.map (fun s => s.length * s.breadth)
      ∧ ∀ a ∈ cfgOneByTwo.ships.map (fun s => s.length * s.breadth), 2 ≤ a)
    ∧ max 2 2 = 2 ∧ min 2 2 = 2
    ∧ rangeStep (max 2 2) (min 2 2) = [0]
    ∧ seekCells cfgOneByTwo.n (max 2 2) (min 2 2)
        = (rangeStep cfgOneByTwo.n 2).flatMap
            (fun r => (rangeStep cfgOneByTwo.n 2).map (fun c => (r, c)))
    ∧ ∀ a b : Nat, ((a, b) ∈ seekCells cfgOneByTwo.n (max 2 2) (min 2 2)
        ↔ 2 ∣ a ∧ a < cfgOneByTwo.n ∧ 2 ∣ b ∧ b < cfgOneByTwo.n) :=
  optimal_lattice_collapsed cfgOneByTwo 2 (by decide) (by decide)

theorem exists_multiple_in_window (s a : Nat) (hs : 1 ≤ s) :
    ∃ k, a ≤ k * s ∧ k * s < a + s := by
  refine ⟨(a + s - 1) / s, ?_, ?_⟩
  · by_contra hcon
    push_neg at hcon
    have h1 : ((a + s - 1) / s + 1) * s ≤ a + s - 1 := by
      have h2 : ((a + s - 1) / s + 1) * s = (a + s - 1) / s * s + s := by ring
      omega
    have h3 := (Nat.le_div_iff_mul_le hs).mpr h1
    omega
  · have h4 : (a + s - 1) / s * s ≤ a + s - 1 := Nat.div_mul_le_self _ _
    omega

/-- C2 (amended): the lattice `seek` walks (with the agent's collapsed
    sides `large_side = max(step, step)`, `small_side = min(step, step)`,
    where `step` is the smallest ship *area*) intersects every axis-aligned
    placement of a `small_side × small_side` block that lies fully inside
    the `n × n` grid — but not every placement of the smallest target
    itself, whose footprint need not contain such a block (see
    `seek_misses_minimal_target`). -/
theorem seek_lattice_covers_min_square (n s a b : Nat) (hs : 1 ≤ min s s)
    (ha : a + min s s ≤ n) (hb : b + min s s ≤ n) :
    ∃ p ∈ seekCells n (max s s) (min s s),
      a ≤ p.1 ∧ p.1 < a + min s s ∧ b ≤ p.2 ∧ p.2 < b + min s s := by
  simp only [Nat.min_self, Nat.max_self] at hs ha hb ⊢
  obtain ⟨k1, hk1a, hk1b⟩ := exists_multiple_in_window s a hs
  obtain ⟨k2, hk2a, hk2b⟩ := exists_multiple_in_window s b hs
  refine ⟨(k1 * s, k2 * s), ?_, hk1a, hk1b, hk2a, hk2b⟩
  exact (mem_seekCells hs).mpr ⟨⟨k1, by ring⟩, by omega, ⟨k2, by ring⟩, by omega⟩

/-- Witness for `seek_lattice_covers_min_square`: on a 4 × 4 grid with
    step 2, the block anchored at `(1, 1)` contains the lattice cell
    `(2, 2)`. -/
theorem seek_lattice_covers_min_square_witness :
    ∃ p ∈ seekCells 4 (max 2 2) (min 2 2),
      1 ≤ p.1 ∧ p.1 < 1 + min 2 2 ∧ 1 ≤ p.2 ∧ p.2 < 1 + min 2 2 :=
  seek_lattice_covers_min_square 4 2 1 1 (by decide) (by decide) (by decide)

/-- C2 (counterexample): the probed pattern does *not* intersect every
    possible placement of the smallest target.  On the 4 × 4 board whose
    single 1 × 2 target sits at `(1, 1)`–`(1, 2)` (a configuration that
    passes construction), the agent's `step_size` is 2, the lattice it
    probes is `{0, 2} × {0, 2}`, and neither target cell lies on it — the
    whole game runs to completion without a single HIT (so `sink` is never
    invoked) and `start_game` returns the unknown-error tuple with the
    target intact. -/
theorem seek_misses_minimal_target :
    buildsOk cfgMissed = true
    ∧ stepSizeOf cfgMissed.ships = some 2
    ∧ (gtOf cfgMissed).grid (1, 1) = 1 ∧ (gtOf cfgMissed).grid (1, 2) = 1
    ∧ (1, 1) ∉ seekCells cfgMissed.n (max 2 2) (min 2 2)
    ∧ (1, 2) ∉ seekCells cfgMissed.n (max 2 2) (min 2 2)
    ∧ (optimalStartGameE cfgMissed.n (totalShipsOf cfgMissed.ships) 2 99
          (freshAgent (gtOf cfgMissed))).map (fun r => r.1)
        = .ok (-1, "Unknown Error: Should not have happened")
    ∧ (seekResultState (optimalSeekE cfgMissed.n (totalShipsOf cfgMissed.ships) 2 99
          (freshAgent (gtOf cfgMissed)))).gt.grid (1, 1) = 1 := by
  exact ⟨rfl, rfl, rfl, rfl, by decide, by decide, rfl, rfl⟩

theorem attackCell_of_struck {st : BoardState} {p : Nat × Nat} (h : st.grid p = CELL_HIT) :
    attackCell st p = (.HIT, st) := by
  unfold attackCell
  rw [if_neg (by rw [h]; decide), if_pos h]

/-- C3: the attack resolution rule of `BattleshipBoard.attack` on an
    in-bounds cell: an empty cell yields MISS and is marked struck; an
    already-struck cell yields HIT with no state change; a cell of ship `k`
    has that ship's remaining-cell count decremented, is marked struck, no
    other cell or ship entry changes, the result is SUNK exactly when the
    count reaches zero, and a second attack on the now-struck cell of a
    not-fully-destroyed ship again yields HIT and changes nothing. -/
theorem attack_resolution_rule (st : BoardState) (p : Nat × Nat)
    (hp : p.1 < st.n ∧ p.2 < st.n) :
    (st.grid p = CELL_EMPTY →
      attackCell st p = (.MISS, { st with grid := Function.update st.grid p CELL_HIT }))
    ∧ (st.grid p = CELL_HIT → attackCell st p = (.HIT, st))
    ∧ ∀ k : Int, st.grid p = k → 0 < k →
        ((attackCell st p).2.shipCells k = st.shipCells k - 1
        ∧ (attackCell st p).2.grid p = CELL_HIT
        ∧ (∀ q, q ≠ p → (attackCell st p).2.grid q = st.grid q)
        ∧ (∀ j, j ≠ k → (attackCell st p).2.shipCells j = st.shipCells j)
        ∧ (attackCell st p).1 = (if st.shipCells k - 1 = 0 then .SUNK else .HIT)
        ∧ (st.shipCells k - 1 ≠ 0 →
            attackCell (attackCell st p).2 p = (.HIT, (attackCell st p).2))) := by
  refine ⟨?_, ?_, ?_⟩
  · intro h
    unfold attackCell
    rw [if_pos h]
  · intro h
    unfold attackCell
    rw [if_neg (by rw [h]; decide), if_pos h]
  · intro k hk hk0
    subst hk
    have hA : attackCell st p =
        ((if st.shipCells (st.grid p) - 1 = 0 then AttackResult.SUNK else .HIT),
         { st with grid := Function.update st.grid p CELL_HIT,
                   shipCells := Function.update st.shipCells (st.grid p)
                     (st.shipCells (st.grid p) - 1) }) := by
      unfold attackCell
      rw [if_neg (by unfold CELL_EMPTY; omega), if_neg (by unfold CELL_HIT; omega), if_pos hk0]
      dsimp only
      rw [Function.update_same]
      split <;> rename_i hsplit <;> simp [hsplit]
    rw [hA]
    dsimp only
    refine ⟨Function.update_same .., Function.update_same .., ?_, ?_, rfl, ?_⟩
    · intro q hq
      exact Function.update_noteq hq _ _
    · intro j hj
      exact Function.update_noteq hj _ _
    · intro _
      exact attackCell_of_struck (Function.update_same ..)

/-- Witness for `attack_resolution_rule` at `witnessBoard`, cell `(0, 0)`. -/
theorem attack_resolution_rule_witness :
    (witnessBoard.grid (0, 0) = CELL_EMPTY →
      attackCell witnessBoard (0, 0)
        = (.MISS, { witnessBoard with
            grid := Function.update witnessBoard.grid (0, 0) CELL_HIT }))
    ∧ (witnessBoard.grid (0, 0) = CELL_HIT → attackCell witnessBoard (0, 0) = (.HIT, witnessBoard))
    ∧ ∀ k : Int, witnessBoard.grid (0, 0) = k → 0 < k →
        ((attackCell witnessBoard (0, 0)).2.shipCells k = witnessBoard.shipCells k - 1
        ∧ (attackCell witnessBoard (0, 0)).2.grid (0, 0) = CELL_HIT
        ∧ (∀ q, q ≠ ((0 : Nat), (0 : Nat)) →
            (attackCell witnessBoard (0, 0)).2.grid q = witnessBoard.grid q)
        ∧ (∀ j, j ≠ k → (attackCell witnessBoard (0, 0)).2.shipCells j = witnessBoard.shipCells j)
        ∧ (attackCell witnessBoard (0, 0)).1
            = (if witnessBoard.shipCells k - 1 = 0 then .SUNK else .HIT)
        ∧ (witnessBoard.shipCells k - 1 ≠ 0 →
            attackCell (attackCell witnessBoard (0, 0)).2 (0, 0)
              = (.HIT, (attackCell witnessBoard (0, 0)).2))) :=
  attack_resolution_rule witnessBoard (0, 0) (by decide)

theorem attackCell_ne_invalid (st : BoardState) (p : Nat × Nat)
    (hwf : CELL_HIT ≤ st.grid p) : (attackCell st p).1 ≠ .INVALID := by
  unfold attackCell
  unfold CELL_HIT CELL_EMPTY at *
  split_ifs with h1 h2 h3
  · simp
  · simp
  · dsimp only
    split <;> simp
  · omega

/-- C4 (counterexample): on the empty 1 × 1 board the out-of-range attack
    `attack(1, 0)` does not return INVALID — the numpy access raises
    `IndexError` instead. -/
theorem attack_out_of_range_raises :
    boardInit { n := 1, ships := [] } emptyDict = .ok emptyOneBoard
    ∧ attack emptyOneBoard 1 0 = .error "IndexError" := by
  exact ⟨rfl, rfl⟩

/-- C4 (amended): on a well-formed board (cell values ≥ -1) an in-range
    attack never returns INVALID (the INVALID branch is dead code), and an
    out-of-range index — `r ≥ N` or `r < -N` on either axis — makes the
    numpy access raise IndexError instead of returning INVALID (integer
    indices in `[-N, 0)` wrap around to `N + r`, so they do not trigger
    INVALID either). -/
theorem attack_invalid_unreachable (st : BoardState) (hwf : ∀ p, CELL_HIT ≤ st.grid p)
    (r c : Int) :
    ((-(st.n : Int) ≤ r ∧ r < st.n ∧ -(st.n : Int) ≤ c ∧ c < st.n) →
      ∃ res st2, attack st r c = .ok (res, st2) ∧ res ≠ .INVALID)
    ∧ ((r < -(st.n : Int) ∨ (st.n : Int) ≤ r ∨ c < -(st.n : Int) ∨ (st.n : Int) ≤ c) →
      attack st r c = .error "IndexError") := by
  constructor
  · intro hin
    have h1 : npIndex st.n r = .ok (if r < 0 then (r + st.n).toNat else r.toNat) := by
      unfold npIndex
      rw [if_neg (by omega)]
      split <;> rfl
    have h2 : npIndex st.n c = .ok (if c < 0 then (c + st.n).toNat else c.toNat) := by
      unfold npIndex
      rw [if_neg (by omega)]
      split <;> rfl
    refine ⟨(attackCell st ((if r < 0 then (r + st.n).toNat else r.toNat),
                (if c < 0 then (c + st.n).toNat else c.toNat))).1,
            (attackCell st ((if r < 0 then (r + st.n).toNat else r.toNat),
                (if c < 0 then (c + st.n).toNat else c.toNat))).2, ?_, ?_⟩
    · unfold attack
      rw [h1, h2]
      exact congrArg Except.ok (Prod.mk.eta).symm
    · exact attackCell_ne_invalid st _ (hwf _)
  · intro hout
    unfold attack
    by_cases hr : r < -(st.n : Int) ∨ (st.n : Int) ≤ r
    · have h1 : npIndex st.n r = .error "IndexError" := by
        unfold npIndex
        rw [if_pos hr]
      rw [h1]
      rfl
    · have hc : c < -(st.n : Int) ∨ (st.n : Int) ≤ c := by tauto
      have h1 : npIndex st.n r = .ok (if r < 0 then (r + st.n).toNat else r.toNat) := by
        unfold npIndex
        rw [if_neg hr]
        split <;> rfl
      have h2 : npIndex st.n c = .error "IndexError" := by
        unfold npIndex
        rw [if_pos hc]
      rw [h1]
      show Except.bind (npIndex st.n c) _ = _
      rw [h2]
      rfl

/-- Witness for `attack_invalid_unreachable` at `witnessBoard` with
    `r = 0`, `c = 1`. -/
theorem attack_invalid_unreachable_witness :
    ((-(witnessBoard.n : Int) ≤ 0 ∧ (0 : Int) < witnessBoard.n
        ∧ -(witnessBoard.n : Int) ≤ 1 ∧ (1 : Int) < witnessBoard.n) →
      ∃ res st2, attack witnessBoard 0 1 = .ok (res, st2) ∧ res ≠ .INVALID)
    ∧ (((0 : Int) < -(witnessBoard.n : Int) ∨ (witnessBoard.n : Int) ≤ 0
        ∨ (1 : Int) < -(witnessBoard.n : Int) ∨ (witnessBoard.n : Int) ≤ 1) →
      attack witnessBoard 0 1 = .error "IndexError") :=
  attack_invalid_unreachable witnessBoard
    (by
      intro p
      unfold witnessBoard CELL_HIT
      dsimp only
      split_ifs <;> omega)
    0 1

/-- C8 (code bug): for `cfgStaleMin` the ship type (2,2) achieves the
    minimum on both axes simultaneously, yet `BattleshipBoard.__init__`
    raises the minimal-type validation error: a strictly smaller length
    only overwrites slot 0 of `min_l_id`, leaving the stale index of the
    (3,3) type behind, and the stale index fails the membership check. -/
theorem min_type_validation_bug :
    hasMinimalType cfgStaleMin.ships = true
    ∧ boardInit cfgStaleMin emptyDict
        = .error "No ship type with both smallest length and smallest breath" := by
  exact ⟨by decide, rfl⟩

/-- C9 (code bug): `SHIP_CELLS` is a class attribute, so every
    `BattleshipBoard` instance mutates the same dictionary: after board A
    (one 1 × 3 ship, remaining count 3) is built, constructing board B
    (one 1 × 2 ship) overwrites key 1 of the shared dictionary with 2 —
    board A's remaining-cell count for its ship has changed without any
    attack on board A. -/
theorem ship_cells_shared_across_boards :
    sharedAfter (boardInit cfgShareA emptyDict) 1 = 3
    ∧ sharedAfter (boardInit cfgShareB (sharedAfter (boardInit cfgShareA emptyDict))) 1 = 2 := by
  exact ⟨rfl, rfl⟩

/-- C10 (counterexample): the configuration with one declared ship of
    length 0 passes construction (its placement loop writes nothing), yet
    `BruteForceAgent.start_game` scans the whole board without a SUNK and
    returns the unknown-error result instead of `(moves, "")`. -/
theorem brute_force_zero_area_error :
    buildsOk cfgZeroLen = true
    ∧ (bruteForceStart cfgZeroLen (gtOf cfgZeroLen)).1
        = (-1, "Unknown Error: Should not have happened") := by
  exact ⟨rfl, rfl⟩

theorem update_true_keep {f : Nat × Nat → Bool} {q p : Nat × Nat} (h : f p = true) :
    Function.update f q true p = true := by
  rcases eq_or_ne p q with rfl | hne
  · rw [Function.update_same]
  · rwa [Function.update_noteq hne]

theorem foldl_state_pres {α : Type} {f : List (Nat × Nat) × AgentState → α → List (Nat × Nat) × AgentState}
    {P : AgentState → Prop}
    (hf : ∀ acc nb, P acc.2 → P (f acc nb).2) (L : List α) :
    ∀ acc, P acc.2 → P (L.foldl f acc).2 := by
  induction L with
  | nil => intro acc h; exact h
  | cons hd tl ih => intro acc h; exact ih _ (hf _ _ h)

theorem sinkVisit_visited_mono {n : Nat} {p : Nat × Nat} :
    ∀ (acc : List (Nat × Nat) × AgentState) (nb : Int × Int),
      acc.2.visited p = true → (sinkVisit n acc nb).2.visited p = true := by
  intro acc nb h
  unfold sinkVisit agentAttack
  dsimp only
  split_ifs <;> first | exact h | exact update_true_keep h

theorem sinkLoop_visited_mono {n : Nat} {p : Nat × Nat} :
    ∀ fuel q (s : AgentState), s.visited p = true → (sinkLoop n fuel q s).visited p = true := by
  intro fuel
  induction fuel with
  | zero => intro q s h; exact h
  | succ f ih =>
    intro q s h
    cases q with
    | nil => exact h
    | cons hd tl =>
      exact ih _ _ (foldl_state_pres (P := fun t => t.visited p = true)
        (fun acc nb h2 => sinkVisit_visited_mono (n := n) acc nb h2) _ _ h)

theorem traceOK_extend {tr : List (Nat × Nat)} {vis : Nat × Nat → Bool} {p : Nat × Nat}
    (h1 : tr.Nodup) (h2 : ∀ q ∈ tr, vis q = true) (hp : vis p = false) :
    (tr ++ [p]).Nodup ∧ ∀ q ∈ tr ++ [p], Function.update vis p true q = true := by
  have hnotin : p ∉ tr := fun hmem => by rw [h2 p hmem] at hp; cases hp
  constructor
  · exact List.Nodup.append h1 (List.nodup_singleton p)
      (fun a ha hb => by rw [List.mem_singleton] at hb; exact hnotin (hb ▸ ha))
  · intro q hq
    rcases List.mem_append.mp hq with hql | hqr
    · exact update_true_keep (h2 q hql)
    · rw [List.mem_singleton] at hqr
      subst hqr
      rw [Function.update_same]

theorem sinkVisit_traceOK {n : Nat} :
    ∀ (acc : List (Nat × Nat) × AgentState) (nb : Int × Int),
      TraceOK acc.2 → TraceOK (sinkVisit n acc nb).2 := by
  intro acc nb h
  unfold sinkVisit agentAttack
  dsimp only
  split_ifs with hg h1 h2
  · exact traceOK_extend h.1 h.2 hg.2.2.2.2
  · exact traceOK_extend h.1 h.2 hg.2.2.2.2
  · exact traceOK_extend h.1 h.2 hg.2.2.2.2
  · exact h

theorem sinkLoop_traceOK {n : Nat} :
    ∀ fuel q (s : AgentState), TraceOK s → TraceOK (sinkLoop n fuel q s) := by
  intro fuel
  induction fuel with
  | zero => intro q s h; exact h
  | succ f ih =>
    intro q s h
    cases q with
    | nil => exact h
    | cons hd tl => exact ih _ _ (foldl_state_pres sinkVisit_traceOK _ _ h)

theorem optimalSink_error {n fuel : Nat} (start : Nat × Nat) (s : AgentState) :
    optimalSink n fuel start s = .error "NameError: name deque is not defined" := rfl

theorem seekLoopE_step {n total fuel : Nat} {hd : Nat × Nat} {tl : List (Nat × Nat)}
    {s : AgentState} (hg : hd.1 < n ∧ hd.2 < n ∧ s.visited hd = false) :
    seekLoopE n total fuel (hd :: tl) s =
      (let r := agentAttack s hd
       let s2 : AgentState :=
         { r.2 with moves := r.2.moves + 1, visited := Function.update r.2.visited hd true }
       if r.1 = .HIT then .error ("NameError: name deque is not defined", s2)
       else if s2.shipsSunk = total then .ok (true, s2)
       else seekLoopE n total fuel tl s2) := by
  conv_lhs => unfold seekLoopE
  rw [if_pos hg]
  dsimp only
  split_ifs <;> rfl

theorem seekLoopE_skip {n total fuel : Nat} {hd : Nat × Nat} {tl : List (Nat × Nat)}
    {s : AgentState} (hg : ¬(hd.1 < n ∧ hd.2 < n ∧ s.visited hd = false)) :
    seekLoopE n total fuel (hd :: tl) s = seekLoopE n total fuel tl s := by
  conv_lhs => unfold seekLoopE
  rw [if_neg hg]

theorem seekLoopE_visited_mono {n total fuel : Nat} {p : Nat × Nat} :
    ∀ (cells : List (Nat × Nat)) (s : AgentState), s.visited p = true →
      (seekResultState (seekLoopE n total fuel cells s)).visited p = true := by
  intro cells
  induction cells with
  | nil => intro s h; exact h
  | cons hd tl ih =>
    intro s h
    by_cases hg : hd.1 < n ∧ hd.2 < n ∧ s.visited hd = false
    · rw [seekLoopE_step hg]
      dsimp only
      split_ifs with hr hdone
      · exact update_true_keep h
      · exact update_true_keep h
      · exact ih _ (update_true_keep h)
    · rw [seekLoopE_skip hg]
      exact ih _ h

/-- Invariant of the faithful `seek` body: the spy log never repeats a cell,
    whether the loop returns or is aborted by the NameError escaping from
    `sink`. -/
theorem seekLoopE_inv {n total fuel : Nat} :
    ∀ (cells : List (Nat × Nat)) (s : AgentState), TraceOK s →
      TraceOK (seekResultState (seekLoopE n total fuel cells s)) := by
  intro cells
  induction cells with
  | nil =>
    intro s hs
    exact hs
  | cons hd tl ih =>
    intro s hs
    by_cases hg : hd.1 < n ∧ hd.2 < n ∧ s.visited hd = false
    · rw [seekLoopE_step hg]
      dsimp only
      split_ifs with hr hdone
      · exact traceOK_extend hs.1 hs.2 hg.2.2
      · exact traceOK_extend hs.1 hs.2 hg.2.2
      · exact ih _ (traceOK_extend hs.1 hs.2 hg.2.2)
    · rw [seekLoopE_skip hg]
      exact ih s hs

/-- The NameError escaping from `sink` is the only way a seek run can
    abort. -/
theorem seekLoopE_error_msg {n total fuel : Nat} :
    ∀ (cells : List (Nat × Nat)) (s : AgentState) (m : String) (s2 : AgentState),
      seekLoopE n total fuel cells s = .error (m, s2) →
      m = "NameError: name deque is not defined" := by
  intro cells
  induction cells with
  | nil =>
    intro s m s2 h
    rw [show seekLoopE n total fuel [] s = .ok (false, s) from rfl] at h
    cases h
  | cons hd tl ih =>
    intro s m s2 h
    by_cases hg : hd.1 < n ∧ hd.2 < n ∧ s.visited hd = false
    · rw [seekLoopE_step hg] at h
      dsimp only at h
      split_ifs at h with hr hdone
      · injection h with h1
        exact (congrArg Prod.fst h1).symm
      · exact ih _ m s2 h
    · rw [seekLoopE_skip hg] at h
      exact ih _ m s2 h

/-- C7: the no-reprobe discipline survives only inside `OptimalAgent.seek`.
    For a whole game from a fresh instance, seek's spy log of attack calls
    stays duplicate-free and the visited mask only ever flips false → true;
    but the shared-mask mechanism claimed for `sink` and for the randomized
    agent never executes: a seek run can only abort with the NameError that
    `sink` raises before its first mask check or attack, and
    `RandomAgent.__init__` raises NameError, so no randomized instance —
    and no randomized probe — ever exists. -/
theorem no_reprobe_only_in_seek :
    (∀ (n total fuel : Nat) (cells : List (Nat × Nat)) (gt : BoardState),
        TraceOK (seekResultState (seekLoopE n total fuel cells (freshAgent gt))))
    ∧ (∀ (n total fuel : Nat) (cells : List (Nat × Nat)) (s : AgentState) (p : Nat × Nat),
        s.visited p = true →
        (seekResultState (seekLoopE n total fuel cells s)).visited p = true)
    ∧ (∀ (n total fuel : Nat) (cells : List (Nat × Nat)) (s : AgentState)
        (m : String) (s2 : AgentState),
        seekLoopE n total fuel cells s = .error (m, s2) →
        m = "NameError: name deque is not defined")
    ∧ (∀ (n : Nat) (gt : BoardState) (seed : Nat),
        randomAgentInit n gt seed = .error "NameError: name random is not defined") := by
  refine ⟨?_, ?_, ?_, fun n gt seed => rfl⟩
  · intro n total fuel cells gt
    exact seekLoopE_inv cells (freshAgent gt)
      ⟨List.nodup_nil, fun p hp => absurd hp (List.not_mem_nil p)⟩
  · intro n total fuel cells s p h
    exact seekLoopE_visited_mono cells s h
  · intro n total fuel cells s m s2 heq
    exact seekLoopE_error_msg cells s m s2 heq

/-- C5: the randomized agent never plays: `agent.py` binds no name
    `random` (nor `deque`), so `RandomAgent.__init__` raises NameError at
    `random.seed(self.seed)` before the cell list is built or shuffled.  No
    instance exists, the `while self.available_cells:` loop never runs, and
    the spy log at the moment the exception is raised is empty: not a
    single probe is ever issued, so neither of the claimed termination
    conditions is ever evaluated. -/
theorem random_agent_never_probes :
    (∀ (n : Nat) (gt : BoardState) (seed : Nat),
        randomAgentInit n gt seed = .error "NameError: name random is not defined")
    ∧ ("random" ∉ agentModuleNames ∧ "deque" ∉ agentModuleNames)
    ∧ (∀ (gt : BoardState), (freshAgent gt).trace = []) := by
  exact ⟨fun n gt seed => rfl, by decide, fun gt => rfl⟩

theorem except_bind_ok {α β : Type} {e : Except String α} {f : α → Except String β} {v : β}
    (h : e.bind f = .ok v) : ∃ w, e = .ok w ∧ f w = .ok v := by
  cases e with
  | error err => exact Except.noConfusion h
  | ok w => exact ⟨w, rfl, h⟩

theorem placeCell_ok {n idv x y i j : Nat} {g g' : Nat × Nat → Int}
    (h : placeCell n idv x y i j g = .ok g') :
    g (x + i, y + j) = 0 ∧ x + i < n ∧ y + j < n
      ∧ g' = Function.update g (x + i, y + j) (idv : Int) := by
  unfold placeCell at h
  split_ifs at h with h1 h2
  refine ⟨not_not.mp h2, h1.1, h1.2, ?_⟩
  injection h with h3
  exact h3.symm

theorem placeRow_ok {n idv x y i : Nat} : ∀ (b : Nat) {g g' : Nat × Nat → Int},
    (List.range b).foldlM (fun g2 j => placeCell n idv x y i j g2) g = .ok g' →
    (∀ j, j < b → g (x + i, y + j) = 0 ∧ x + i < n ∧ y + j < n)
    ∧ (∀ p : Nat × Nat, p.1 = x + i → y ≤ p.2 → p.2 < y + b → g' p = (idv : Int))
    ∧ (∀ p : Nat × Nat, ¬ (p.1 = x + i ∧ y ≤ p.2 ∧ p.2 < y + b) → g' p = g p) := by
  intro b
  induction b with
  | zero =>
    intro g g' h
    have hg : g = g' := by injection h
    subst hg
    exact ⟨fun j hj => absurd hj (by omega), fun p h1 h2 h3 => absurd h3 (by omega),
      fun p h1 => rfl⟩
  | succ b ih =>
    intro g g' h
    rw [List.range_succ, List.foldlM_append] at h
    obtain ⟨gmid, hmid, hlast⟩ := except_bind_ok h
    obtain ⟨gfin, hcell, hpure⟩ := except_bind_ok hlast
    have hg : gfin = g' := by injection hpure
    subst hg
    obtain ⟨h0, hb1, hb2, hup⟩ := placeCell_ok hcell
    obtain ⟨ihA, ihB, ihC⟩ := ih hmid
    subst hup
    refine ⟨?_, ?_, ?_⟩
    · intro j hj
      rcases Nat.lt_succ_iff_lt_or_eq.mp hj with hjb | rfl
      · exact ihA j hjb
      · have hmid0 : gmid (x + i, y + j) = g (x + i, y + j) := ihC _ (by dsimp; omega)
        exact ⟨hmid0 ▸ h0, hb1, hb2⟩
    · intro p hp1 hp2 hp3
      rcases eq_or_ne p (x + i, y + b) with rfl | hne
      · rw [Function.update_same]
      · have hp3b : p.2 < y + b := by
          rcases Nat.lt_succ_iff_lt_or_eq.mp hp3 with hlt | heq
          · exact hlt
          · exact absurd (Prod.ext hp1 heq) hne
        rw [Function.update_noteq hne]
        exact ihB p hp1 hp2 hp3b
    · intro p hp
      have hne : p ≠ (x + i, y + b) := by
        rintro rfl
        exact hp ⟨rfl, by omega, by omega⟩
      rw [Function.update_noteq hne]
      exact ihC p (fun hc => hp ⟨hc.1, hc.2.1, by omega⟩)

theorem placeRect_ok {n idv x y : Nat} : ∀ (l b : Nat) {g g' : Nat × Nat → Int},
    (List.range l).foldlM
      (fun gi i => (List.range b).foldlM (fun g2 j => placeCell n idv x y i j g2) gi) g
      = .ok g' →
    (∀ p, inRect x y l b p → g p = 0 ∧ p.1 < n ∧ p.2 < n)
    ∧ (∀ p, inRect x y l b p → g' p = (idv : Int))
    ∧ (∀ p, ¬ inRect x y l b p → g' p = g p) := by
  intro l
  induction l with
  | zero =>
    intro b g g' h
    have hg : g = g' := by injection h
    subst hg
    exact ⟨fun p hp => absurd hp (by unfold inRect; omega),
      fun p hp => absurd hp (by unfold inRect; omega), fun p hp => rfl⟩
  | succ l ih =>
    intro b g g' h
    rw [List.range_succ, List.foldlM_append] at h
    obtain ⟨gmid, hmid, hlast⟩ := except_bind_ok h
    obtain ⟨gfin, hrow, hpure⟩ := except_bind_ok hlast
    have hg : gfin = g' := by injection hpure
    subst hg
    obtain ⟨rowA, rowB, rowC⟩ := placeRow_ok b hrow
    obtain ⟨ihA, ihB, ihC⟩ := ih b hmid
    refine ⟨?_, ?_, ?_⟩
    · rintro ⟨p1, p2⟩ hp
      unfold inRect at hp
      dsimp at hp
      rcases Nat.lt_or_ge p1 (x + l) with hlt | hge
      · exact ihA (p1, p2) ⟨hp.1, hlt, hp.2.2⟩
      · have hp1 : p1 = x + l := by omega
        subst hp1
        have hj := rowA (p2 - y) (by omega)
        have heq : y + (p2 - y) = p2 := by omega
        rw [heq] at hj
        have hmid0 : gmid (x + l, p2) = g (x + l, p2) :=
          ihC (x + l, p2) (by unfold inRect; dsimp; omega)
        exact ⟨hmid0 ▸ hj.1, hj.2.1, hj.2.2⟩
    · rintro ⟨p1, p2⟩ hp
      unfold inRect at hp
      dsimp at hp
      rcases Nat.lt_or_ge p1 (x + l) with hlt | hge
      · have hnr : ¬ ((p1 : Nat) = x + l ∧ y ≤ p2 ∧ p2 < y + b) := by omega
        rw [rowC (p1, p2) hnr]
        exact ihB (p1, p2) (by unfold inRect; dsimp; omega)
      · have hp1 : p1 = x + l := by omega
        subst hp1
        exact rowB (x + l, p2) rfl (by omega) (by omega)
    · rintro ⟨p1, p2⟩ hp
      unfold inRect at hp
      dsimp at hp
      have hnr : ¬ ((p1 : Nat) = x + l ∧ y ≤ p2 ∧ p2 < y + b) := by omega
      rw [rowC (p1, p2) hnr]
      exact ihC (p1, p2) (by unfold inRect; dsimp; omega)

theorem placeShipAt_ok {n : Nat} {ship : Ship} {ps ps' : PlaceState} {pos : Nat × Nat}
    (h : placeShipAt n ship ps pos = .ok ps') :
    ps'.id = ps.id + 1
    ∧ ps'.shipCells = Function.update ps.shipCells ((ps.id + 1 : Nat) : Int)
        ((ship.length * ship.breadth : Nat) : Int)
    ∧ (∀ p, inRect pos.1 pos.2 ship.length ship.breadth p →
        ps.grid p = 0 ∧ p.1 < n ∧ p.2 < n ∧ ps'.grid p = ((ps.id + 1 : Nat) : Int))
    ∧ (∀ p, ¬ inRect pos.1 pos.2 ship.length ship.breadth p → ps'.grid p = ps.grid p) := by
  unfold placeShipAt at h
  obtain ⟨gfin, hrect, hpure⟩ := except_bind_ok h
  injection hpure with h2
  subst h2
  obtain ⟨rA, rB, rC⟩ := placeRect_ok ship.length ship.breadth hrect
  exact ⟨rfl, rfl, fun p hp => ⟨(rA p hp).1, (rA p hp).2.1, (rA p hp).2.2, rB p hp⟩,
    fun p hp => rC p hp⟩

theorem rectCells_card {n x y l b : Nat} (hx : x + l ≤ n) (hy : y + b ≤ n) :
    (rectCells n x y l b).card = l * b := by
  have hset : rectCells n x y l b = Finset.Ico x (x + l) ×ˢ Finset.Ico y (y + b) := by
    ext p
    simp only [rectCells, gridCells, inRect, Finset.mem_filter, Finset.mem_product,
      Finset.mem_range, Finset.mem_Ico]
    omega
  rw [hset, Finset.card_product, Nat.card_Ico, Nat.card_Ico,
    Nat.add_sub_cancel_left, Nat.add_sub_cancel_left]

theorem cellsOf_update_ne {n k : Nat} {g : Nat × Nat → Int} {p : Nat × Nat} {v : Int}
    (hv : v ≠ (k : Int)) (hp : g p ≠ (k : Int)) :
    cellsOf n (Function.update g p v) k = cellsOf n g k := by
  unfold cellsOf
  apply Finset.filter_congr
  intro q hq
  rcases eq_or_ne q p with rfl | hne
  · simp [Function.update_same, hv, hp]
  · rw [Function.update_noteq hne]

theorem cellsOf_update_strike {n k : Nat} {g : Nat × Nat → Int} {p : Nat × Nat}
    (hk : 1 ≤ k) :
    cellsOf n (Function.update g p (-1)) k = (cellsOf n g k).erase p := by
  have hki : (1 : Int) ≤ (k : Int) := by exact_mod_cast hk
  unfold cellsOf
  ext q
  simp only [Finset.mem_filter, Finset.mem_erase]
  rcases eq_or_ne q p with rfl | hne
  · rw [Function.update_same]
    constructor
    · rintro ⟨_, hv⟩
      omega
    · rintro ⟨hq, _⟩
      exact absurd rfl hq
  · rw [Function.update_noteq hne]
    constructor
    · rintro ⟨hq, hv⟩
      exact ⟨hne, hq, hv⟩
    · rintro ⟨_, hq, hv⟩
      exact ⟨hq, hv⟩

theorem placePositions_ok {n : Nat} {ship : Ship}
    (hl : 1 ≤ ship.length) (hb : 1 ≤ ship.breadth) :
    ∀ (posl : List (Nat × Nat)) (ps ps' : PlaceState),
      posl.foldlM (placeShipAt n ship) ps = .ok ps'
      → PlacedOK n ps.id ps.grid ps.shipCells
      → ps'.id = ps.id + posl.length ∧ PlacedOK n ps'.id ps'.grid ps'.shipCells := by
  intro posl
  induction posl with
  | nil =>
    intro ps ps' h hok
    have heq : ps = ps' := by injection h
    subst heq
    exact ⟨rfl, hok⟩
  | cons pos rest ih =>
    intro ps ps' h hok
    obtain ⟨mid, hmid, hrest⟩ := except_bind_ok h
    obtain ⟨hid, hdict, hrect, hout⟩ := placeShipAt_ok hmid
    obtain ⟨hval, hbnd, hcnt⟩ := hok
    have hcorner : pos.1 + ship.length ≤ n ∧ pos.2 + ship.breadth ≤ n := by
      have hc := hrect (pos.1 + (ship.length - 1), pos.2 + (ship.breadth - 1))
        (by unfold inRect; dsimp; omega)
      dsimp at hc
      omega
    have hsame : ∀ k : Nat, 1 ≤ k → k ≤ ps.id →
        cellsOf n mid.grid k = cellsOf n ps.grid k := by
      intro k hk1 hk2
      unfold cellsOf
      apply Finset.filter_congr
      intro q hq
      by_cases hin : inRect pos.1 pos.2 ship.length ship.breadth q
      · have h1 : mid.grid q = ((ps.id + 1 : Nat) : Int) := (hrect q hin).2.2.2
        have h2 : ps.grid q = 0 := (hrect q hin).1
        rw [h1, h2]
        constructor
        · intro hcast
          have : ps.id + 1 = k := by exact_mod_cast hcast
          omega
        · intro hcast
          exfalso
          omega
      · rw [hout q hin]
    have hnew : cellsOf n mid.grid (ps.id + 1)
        = rectCells n pos.1 pos.2 ship.length ship.breadth := by
      unfold cellsOf rectCells
      apply Finset.filter_congr
      intro q hq
      by_cases hin : inRect pos.1 pos.2 ship.length ship.breadth q
      · have h1 : mid.grid q = ((ps.id + 1 : Nat) : Int) := (hrect q hin).2.2.2
        rw [h1]
        simp [hin]
      · rw [hout q hin]
        have h2 : ps.grid q ≤ (ps.id : Int) := (hval q).2
        constructor
        · intro hcast
          exfalso
          have : ((ps.id + 1 : Nat) : Int) ≤ (ps.id : Int) := hcast ▸ h2
          omega
        · intro hcast
          exact absurd hcast hin
    have hmidOK : PlacedOK n mid.id mid.grid mid.shipCells := by
      rw [hid]
      refine ⟨?_, ?_, ?_⟩
      · intro p
        by_cases hin : inRect pos.1 pos.2 ship.length ship.breadth p
        · have h1 : mid.grid p = ((ps.id + 1 : Nat) : Int) := (hrect p hin).2.2.2
          rw [h1]
          constructor <;> omega
        · rw [hout p hin]
          have h2 := hval p
          constructor
          · exact h2.1
          · have : (ps.id : Int) ≤ ((ps.id + 1 : Nat) : Int) := by push_cast; omega
            omega
      · intro p hp
        by_cases hin : inRect pos.1 pos.2 ship.length ship.breadth p
        · exact ⟨(hrect p hin).2.1, (hrect p hin).2.2.1⟩
        · rw [hout p hin] at hp
          exact hbnd p hp
      · intro k hk1 hk2
        rcases Nat.lt_or_ge k (ps.id + 1) with hlt | hge
        · have hk2b : k ≤ ps.id := by omega
          have hcast : ((k : Nat) : Int) ≠ ((ps.id + 1 : Nat) : Int) := by
            intro hc
            have : k = ps.id + 1 := by exact_mod_cast hc
            omega
          rw [hdict, Function.update_noteq hcast, hsame k hk1 hk2b]
          exact hcnt k hk1 hk2b
        · have hkeq : k = ps.id + 1 := by omega
          subst hkeq
          rw [hdict, Function.update_same, hnew,
            rectCells_card hcorner.1 hcorner.2]
          constructor
          · rfl
          · calc 1 = 1 * 1 := by omega
              _ ≤ ship.length * ship.breadth := Nat.mul_le_mul hl hb
    obtain ⟨hid2, hok2⟩ := ih mid ps' hrest hmidOK
    refine ⟨?_, hok2⟩
    rw [hid2, hid, List.length_cons]
    omega

theorem placeShips_ok {n : Nat} : ∀ (ships : List Ship) (ps ps' : PlaceState),
    placeShips n ships ps = .ok ps'
    → (∀ s ∈ ships, 1 ≤ s.length ∧ 1 ≤ s.breadth)
    → PlacedOK n ps.id ps.grid ps.shipCells
    → ps'.id = ps.id + (ships.map (fun s => s.positions.length)).sum
      ∧ PlacedOK n ps'.id ps'.grid ps'.shipCells := by
  intro ships
  induction ships with
  | nil =>
    intro ps ps' h hd hok
    have heq : ps = ps' := by injection h
    subst heq
    exact ⟨by simp, hok⟩
  | cons s rest ih =>
    intro ps ps' h hd hok
    obtain ⟨mid, hmid, hrest⟩ := except_bind_ok h
    obtain ⟨hid1, hok1⟩ :=
      placePositions_ok (hd s (by simp)).1 (hd s (by simp)).2 s.positions ps mid hmid hok
    obtain ⟨hid2, hok2⟩ := ih mid ps' hrest (fun t ht => hd t (by simp [ht])) hok1
    refine ⟨?_, hok2⟩
    rw [hid2, hid1, List.map_cons, List.sum_cons]
    omega

theorem foldlM_scanStep_counts {all : List Ship} : ∀ (l : List Ship) (acc sc : InitScan),
    l.foldlM (scanStep all) acc = .ok sc → ∀ s ∈ l, s.count = s.positions.length := by
  intro l
  induction l with
  | nil => intro acc sc h s hs; cases hs
  | cons hd tl ih =>
    intro acc sc h s hs
    obtain ⟨mid, hmid, hrest⟩ := except_bind_ok h
    rcases List.mem_cons.mp hs with rfl | htl
    · unfold scanStep at hmid
      split_ifs at hmid with hc
      exact not_not.mp hc
    · exact ih mid sc hrest s htl

theorem scanShips_counts {ships : List Ship} {sc : InitScan}
    (h : scanShips ships = .ok sc) : ∀ s ∈ ships, s.count = s.positions.length :=
  foldlM_scanStep_counts ships _ _ h

theorem boardInit_ok {cfg : BoardConfig} {shared : Int → Int} {st : BoardState}
    (h : boardInit cfg shared = .ok st) :
    ∃ sc ps, scanShips cfg.ships = .ok sc
      ∧ placeShips cfg.n cfg.ships ⟨fun _ => 0, shared, 0⟩ = .ok ps
      ∧ st.n = cfg.n ∧ st.grid = ps.grid ∧ st.shipCells = ps.shipCells := by
  unfold boardInit at h
  obtain ⟨sc, hsc, h2⟩ := except_bind_ok h
  split_ifs at h2 with hmin harea
  obtain ⟨ps, hps, h3⟩ := except_bind_ok h2
  injection h3 with h4
  exact ⟨sc, ps, hsc, hps, by rw [← h4], by rw [← h4], by rw [← h4]⟩

theorem rowMajor_eq {n : Nat} : rowMajor n = List.range n ×ˢ List.range n := rfl

theorem rowMajor_nodup {n : Nat} : (rowMajor n).Nodup := by
  rw [rowMajor_eq]
  exact List.Nodup.product (List.nodup_range n) (List.nodup_range n)

theorem rowMajor_length {n : Nat} : (rowMajor n).length = n * n := by
  rw [rowMajor_eq, List.length_product, List.length_range]

theorem mem_rowMajor {n : Nat} {p : Nat × Nat} : p ∈ rowMajor n ↔ p.1 < n ∧ p.2 < n := by
  cases p with
  | mk a b =>
    rw [rowMajor_eq, List.mem_product, List.mem_range, List.mem_range]

theorem attackCell_miss {st : BoardState} {p : Nat × Nat} (h : st.grid p = 0) :
    attackCell st p = (.MISS, { st with grid := Function.update st.grid p (-1) }) := by
  unfold attackCell
  rw [if_pos (show st.grid p = CELL_EMPTY from h)]
  rfl

theorem attackCell_ship {st : BoardState} {p : Nat × Nat} {k : Nat}
    (hk : st.grid p = (k : Int)) (hk1 : 1 ≤ k) :
    attackCell st p =
      ((if st.shipCells (k : Int) - 1 = 0 then AttackResult.SUNK else .HIT),
       { st with grid := Function.update st.grid p (-1),
                 shipCells := Function.update st.shipCells (k : Int)
                   (st.shipCells (k : Int) - 1) }) := by
  have hki : (1 : Int) ≤ (k : Int) := by exact_mod_cast hk1
  have hpos : 0 < st.grid p := by omega
  unfold attackCell
  rw [if_neg (by unfold CELL_EMPTY; omega), if_neg (by unfold CELL_HIT; omega), if_pos hpos]
  dsimp only
  rw [hk, Function.update_same]
  unfold CELL_HIT
  split <;> rename_i hs <;> simp [hs]

theorem destroyedCount_update_zero {n K : Nat} {g : Nat × Nat → Int} {p : Nat × Nat}
    (hp : g p = 0) :
    destroyedCount n (Function.update g p (-1)) K = destroyedCount n g K := by
  unfold destroyedCount
  congr 1
  apply Finset.filter_congr
  intro j hj
  rw [Finset.mem_Icc] at hj
  have hji : (1 : Int) ≤ (j : Int) := by exact_mod_cast hj.1
  have hv : (-1 : Int) ≠ ((j : Nat) : Int) := by omega
  have hgp : g p ≠ ((j : Nat) : Int) := by rw [hp]; omega
  rw [cellsOf_update_ne hv hgp]

theorem destroyedCount_strike_last {n K k : Nat} {g : Nat × Nat → Int} {p : Nat × Nat}
    (hk1 : 1 ≤ k) (hk2 : k ≤ K) (hp : g p = (k : Int)) (hmem : p ∈ gridCells n)
    (hone : (cellsOf n g k).card = 1) :
    destroyedCount n (Function.update g p (-1)) K = destroyedCount n g K + 1 := by
  have hpmem : p ∈ cellsOf n g k := Finset.mem_filter.mpr ⟨hmem, hp⟩
  have hfilter :
      (Finset.Icc 1 K).filter (fun j => (cellsOf n (Function.update g p (-1)) j).card = 0)
        = insert k ((Finset.Icc 1 K).filter (fun j => (cellsOf n g j).card = 0)) := by
    ext j
    simp only [Finset.mem_filter, Finset.mem_insert, Finset.mem_Icc]
    rcases eq_or_ne j k with rfl | hne
    · constructor
      · intro _
        exact Or.inl rfl
      · intro _
        refine ⟨⟨hk1, hk2⟩, ?_⟩
        rw [cellsOf_update_strike hk1, Finset.card_erase_of_mem hpmem, hone]
    · have hji : (1 : Int) ≤ (k : Int) := by exact_mod_cast hk1
      have hjne : ((k : Nat) : Int) ≠ ((j : Nat) : Int) := by
        intro hc
        have hkj : k = j := by exact_mod_cast hc
        exact hne hkj.symm
      have hv : (-1 : Int) ≠ ((j : Nat) : Int) := by omega
      have hgp : g p ≠ ((j : Nat) : Int) := by rw [hp]; exact hjne
      rw [cellsOf_update_ne hv hgp]
      constructor
      · rintro ⟨hjc, h0⟩
        exact Or.inr ⟨hjc, h0⟩
      · rintro (rfl | ⟨hjc, h0⟩)
        · exact absurd rfl hne
        · exact ⟨hjc, h0⟩
  unfold destroyedCount
  rw [hfilter, Finset.card_insert_of_not_mem]
  intro hmemf
  rw [Finset.mem_filter] at hmemf
  omega

theorem destroyedCount_strike_more {n K k : Nat} {g : Nat × Nat → Int} {p : Nat × Nat}
    (hk1 : 1 ≤ k) (hp : g p = (k : Int)) (hmem : p ∈ gridCells n)
    (hmore : 2 ≤ (cellsOf n g k).card) :
    destroyedCount n (Function.update g p (-1)) K = destroyedCount n g K := by
  have hpmem : p ∈ cellsOf n g k := Finset.mem_filter.mpr ⟨hmem, hp⟩
  unfold destroyedCount
  congr 1
  apply Finset.filter_congr
  intro j hj
  rcases eq_or_ne j k with rfl | hne
  · rw [cellsOf_update_strike hk1, Finset.card_erase_of_mem hpmem]
    omega
  · have hji : (1 : Int) ≤ (k : Int) := by exact_mod_cast hk1
    have hjne : ((k : Nat) : Int) ≠ ((j : Nat) : Int) := by
      intro hc
      have hkj : k = j := by exact_mod_cast hc
      exact hne hkj.symm
    have hv : (-1 : Int) ≠ ((j : Nat) : Int) := by omega
    have hgp : g p ≠ ((j : Nat) : Int) := by rw [hp]; exact hjne
    rw [cellsOf_update_ne hv hgp]

theorem destroyedCount_le {n K : Nat} {g : Nat × Nat → Int} : destroyedCount n g K ≤ K := by
  unfold destroyedCount
  calc ((Finset.Icc 1 K).filter (fun k => (cellsOf n g k).card = 0)).card
      ≤ (Finset.Icc 1 K).card := Finset.card_filter_le _ _
    _ = K := by rw [Nat.card_Icc]; omega

theorem bruteLoop_step {K : Nat} {cells : List (Nat × Nat)} {p : Nat × Nat} {gt gtx : BoardState}
    {res : AttackResult} {sunk moves : Nat}
    (hatk : attackCell gt p = (res, gtx)) (hres : res ≠ .INVALID) :
    bruteLoop K (p :: cells) gt sunk moves
      = (if (if res = .SUNK then sunk + 1 else sunk) = K
          then ((((moves + 1 : Nat) : Int), ""), gtx)
          else bruteLoop K cells gtx (if res = .SUNK then sunk + 1 else sunk) (moves + 1)) := by
  conv_lhs => unfold bruteLoop
  rw [hatk]
  dsimp only
  rw [if_neg hres]

theorem bruteLoop_completes {n K : Nat} : ∀ (cells : List (Nat × Nat)) (gt : BoardState)
    (sunk moves : Nat),
    BruteInv n K gt cells sunk
    → (cells ≠ [] ∨ sunk < K)
    → ∃ (m : Nat) (gt2 : BoardState),
        bruteLoop K cells gt sunk moves = (((m : Int), ""), gt2)
        ∧ moves < m ∧ m ≤ moves + cells.length := by
  intro cells
  induction cells with
  | nil =>
    intro gt sunk moves hinv hne
    exfalso
    obtain ⟨hnd, hval, hbnd, hcnt, hin, hstruck, hsunk⟩ := hinv
    rcases hne with hc | hlt
    · exact hc rfl
    · have hall : ∀ j ∈ Finset.Icc 1 K, (cellsOf n gt.grid j).card = 0 := by
        intro j hj
        rw [Finset.card_eq_zero, Finset.eq_empty_iff_forall_not_mem]
        intro q hq
        rw [Finset.mem_Icc] at hj
        obtain ⟨hq1, hq2⟩ := Finset.mem_filter.mp hq
        have hji : (1 : Int) ≤ (j : Int) := by exact_mod_cast hj.1
        have hqpos : (0 : Int) < gt.grid q := by rw [hq2]; omega
        exact absurd (hin q hqpos) (List.not_mem_nil q)
      have hdc : destroyedCount n gt.grid K = K := by
        unfold destroyedCount
        rw [Finset.filter_true_of_mem hall, Nat.card_Icc]
        omega
      omega
  | cons p rest ih =>
    intro gt sunk moves hinv hne
    obtain ⟨hnd, hval, hbnd, hcnt, hin, hstruck, hsunk⟩ := hinv
    have hp_unstruck : gt.grid p ≠ -1 := hstruck p (List.mem_cons_self p rest)
    have hsle : sunk ≤ K := hsunk ▸ destroyedCount_le
    have hpnotin : p ∉ rest := (List.nodup_cons.mp hnd).1
    have hge0 : 0 ≤ gt.grid p := by
      have h1 := (hval p).1
      omega
    rcases eq_or_lt_of_le hge0 with hzero | hpos
    · -- MISS: the scanned cell is empty
      have hgp : gt.grid p = 0 := hzero.symm
      rw [bruteLoop_step (attackCell_miss hgp) (by decide)]
      rw [if_neg (show ¬ (AttackResult.MISS = AttackResult.SUNK) by decide)]
      by_cases hsk : sunk = K
      · rw [if_pos hsk]
        exact ⟨moves + 1, _, rfl, by omega, by rw [List.length_cons]; omega⟩
      · rw [if_neg hsk]
        have hinvM : BruteInv n K { gt with grid := Function.update gt.grid p (-1) } rest sunk := by
          refine ⟨List.Nodup.of_cons hnd, ?_, ?_, ?_, ?_, ?_, ?_⟩
          · intro q
            dsimp only
            rcases eq_or_ne q p with rfl | hne2
            · rw [Function.update_same]
              have h2 : (0 : Int) ≤ (K : Int) := Int.natCast_nonneg K
              omega
            · rw [Function.update_noteq hne2]
              exact hval q
          · intro q hq1 hq2
            dsimp only at hq1 hq2
            rcases eq_or_ne q p with rfl | hne2
            · rw [Function.update_same] at hq2
              exact absurd rfl hq2
            · rw [Function.update_noteq hne2] at hq1 hq2
              exact hbnd q hq1 hq2
          · intro k hk1 hk2
            dsimp only
            have hji : (1 : Int) ≤ (k : Int) := by exact_mod_cast hk1
            have hv : (-1 : Int) ≠ ((k : Nat) : Int) := by omega
            have hgp2 : gt.grid p ≠ ((k : Nat) : Int) := by rw [hgp]; omega
            rw [cellsOf_update_ne hv hgp2]
            exact hcnt k hk1 hk2
          · intro q hq
            dsimp only at hq
            rcases eq_or_ne q p with rfl | hne2
            · rw [Function.update_same] at hq
              exact absurd hq (by decide)
            · rw [Function.update_noteq hne2] at hq
              rcases List.mem_cons.mp (hin q hq) with rfl | h3
              · exact absurd rfl hne2
              · exact h3
          · intro q hq
            dsimp only
            have hne2 : q ≠ p := fun hh => hpnotin (hh ▸ hq)
            rw [Function.update_noteq hne2]
            exact hstruck q (List.mem_cons_of_mem p hq)
          · dsimp only
            rw [destroyedCount_update_zero hgp]
            exact hsunk
        obtain ⟨m, gt2, hrun, hm1, hm2⟩ := ih _ sunk (moves + 1) hinvM (Or.inr (by omega))
        exact ⟨m, gt2, hrun, by omega, by rw [List.length_cons]; omega⟩
    · -- the scanned cell belongs to a ship
      have hk1 : 1 ≤ (gt.grid p).toNat := by omega
      have hkK : (gt.grid p).toNat ≤ K := by
        have h2 := (hval p).2
        omega
      have hkcast : gt.grid p = (((gt.grid p).toNat : Nat) : Int) :=
        (Int.toNat_of_nonneg hge0).symm
      set k := (gt.grid p).toNat with hkdef
      have hpbnd : p.1 < n ∧ p.2 < n := hbnd p (by omega) hp_unstruck
      have hpgrid : p ∈ gridCells n :=
        Finset.mem_product.mpr ⟨Finset.mem_range.mpr hpbnd.1, Finset.mem_range.mpr hpbnd.2⟩
      have hpcell : p ∈ cellsOf n gt.grid k := Finset.mem_filter.mpr ⟨hpgrid, hkcast⟩
      have hcard1 : 1 ≤ (cellsOf n gt.grid k).card := Finset.card_pos.mpr ⟨p, hpcell⟩
      have hcntk := hcnt k hk1 hkK
      rw [bruteLoop_step (attackCell_ship hkcast hk1) (by split <;> decide)]
      by_cases hzro : gt.shipCells ((k : Nat) : Int) - 1 = 0
      · -- SUNK: the struck cell was the ship's last one
        have hcard : (cellsOf n gt.grid k).card = 1 := by omega
        rw [if_pos hzro, if_pos rfl]
        by_cases hsk : sunk + 1 = K
        · rw [if_pos hsk]
          exact ⟨moves + 1, _, rfl, by omega, by rw [List.length_cons]; omega⟩
        · rw [if_neg hsk]
          have hinvS : BruteInv n K
              { gt with grid := Function.update gt.grid p (-1),
                        shipCells := Function.update gt.shipCells ((k : Nat) : Int)
                          (gt.shipCells ((k : Nat) : Int) - 1) } rest (sunk + 1) := by
            refine ⟨List.Nodup.of_cons hnd, ?_, ?_, ?_, ?_, ?_, ?_⟩
            · intro q
              dsimp only
              rcases eq_or_ne q p with rfl | hne2
              · rw [Function.update_same]
                have h2 : (0 : Int) ≤ (K : Int) := Int.natCast_nonneg K
                omega
              · rw [Function.update_noteq hne2]
                exact hval q
            · intro q hq1 hq2
              dsimp only at hq1 hq2
              rcases eq_or_ne q p with rfl | hne2
              · rw [Function.update_same] at hq2
                exact absurd rfl hq2
              · rw [Function.update_noteq hne2] at hq1 hq2
                exact hbnd q hq1 hq2
            · intro j hj1 hj2
              dsimp only
              rcases eq_or_ne j k with rfl | hne2
              · rw [Function.update_same, cellsOf_update_strike hj1,
                  Finset.card_erase_of_mem hpcell]
                omega
              · have hji : (1 : Int) ≤ (j : Int) := by exact_mod_cast hj1
                have hcne : ((j : Nat) : Int) ≠ ((k : Nat) : Int) := by
                  intro hc
                  exact hne2 (by exact_mod_cast hc)
                have hv : (-1 : Int) ≠ ((j : Nat) : Int) := by omega
                have hgp2 : gt.grid p ≠ ((j : Nat) : Int) := by rw [hkcast]; exact hcne.symm
                rw [Function.update_noteq hcne, cellsOf_update_ne hv hgp2]
                exact hcnt j hj1 hj2
            · intro q hq
              dsimp only at hq
              rcases eq_or_ne q p with rfl | hne2
              · rw [Function.update_same] at hq
                exact absurd hq (by decide)
              · rw [Function.update_noteq hne2] at hq
                rcases List.mem_cons.mp (hin q hq) with rfl | h3
                · exact absurd rfl hne2
                · exact h3
            · intro q hq
              dsimp only
              have hne2 : q ≠ p := fun hh => hpnotin (hh ▸ hq)
              rw [Function.update_noteq hne2]
              exact hstruck q (List.mem_cons_of_mem p hq)
            · dsimp only
              rw [destroyedCount_strike_last hk1 hkK hkcast hpgrid hcard]
              omega
          have hsle2 : sunk + 1 ≤ K := by
            have h3 : sunk + 1 = destroyedCount n
                (Function.update gt.grid p (-1)) K := by
              rw [destroyedCount_strike_last hk1 hkK hkcast hpgrid hcard]
              omega
            rw [h3]
            exact destroyedCount_le
          obtain ⟨m, gt2, hrun, hm1, hm2⟩ := ih _ (sunk + 1) (moves + 1) hinvS (Or.inr (by omega))
          exact ⟨m, gt2, hrun, by omega, by rw [List.length_cons]; omega⟩
      · -- HIT: the ship still has cells left
        have hcard2 : 2 ≤ (cellsOf n gt.grid k).card := by omega
        rw [if_neg hzro, if_neg (show ¬ (AttackResult.HIT = AttackResult.SUNK) by decide)]
        by_cases hsk : sunk = K
        · rw [if_pos hsk]
          exact ⟨moves + 1, _, rfl, by omega, by rw [List.length_cons]; omega⟩
        · rw [if_neg hsk]
          have hinvH : BruteInv n K
              { gt with grid := Function.update gt.grid p (-1),
                        shipCells := Function.update gt.shipCells ((k : Nat) : Int)
                          (gt.shipCells ((k : Nat) : Int) - 1) } rest sunk := by
            refine ⟨List.Nodup.of_cons hnd, ?_, ?_, ?_, ?_, ?_, ?_⟩
            · intro q
              dsimp only
              rcases eq_or_ne q p with rfl | hne2
              · rw [Function.update_same]
                have h2 : (0 : Int) ≤ (K : Int) := Int.natCast_nonneg K
                omega
              · rw [Function.update_noteq hne2]
                exact hval q
            · intro q hq1 hq2
              dsimp only at hq1 hq2
              rcases eq_or_ne q p with rfl | hne2
              · rw [Function.update_same] at hq2
                exact absurd rfl hq2
              · rw [Function.update_noteq hne2] at hq1 hq2
                exact hbnd q hq1 hq2
            · intro j hj1 hj2
              dsimp only
              rcases eq_or_ne j k with rfl | hne2
              · rw [Function.update_same, cellsOf_update_strike hj1,
                  Finset.card_erase_of_mem hpcell]
                omega
              · have hji : (1 : Int) ≤ (j : Int) := by exact_mod_cast hj1
                have hcne : ((j : Nat) : Int) ≠ ((k : Nat) : Int) := by
                  intro hc
                  exact hne2 (by exact_mod_cast hc)
                have hv : (-1 : Int) ≠ ((j : Nat) : Int) := by omega
                have hgp2 : gt.grid p ≠ ((j : Nat) : Int) := by rw [hkcast]; exact hcne.symm
                rw [Function.update_noteq hcne, cellsOf_update_ne hv hgp2]
                exact hcnt j hj1 hj2
            · intro q hq
              dsimp only at hq
              rcases eq_or_ne q p with rfl | hne2
              · rw [Function.update_same] at hq
                exact absurd hq (by decide)
              · rw [Function.update_noteq hne2] at hq
                rcases List.mem_cons.mp (hin q hq) with rfl | h3
                · exact absurd rfl hne2
                · exact h3
            · intro q hq
              dsimp only
              have hne2 : q ≠ p := fun hh => hpnotin (hh ▸ hq)
              rw [Function.update_noteq hne2]
              exact hstruck q (List.mem_cons_of_mem p hq)
            · dsimp only
              rw [destroyedCount_strike_more hk1 hkcast hpgrid hcard2]
              exact hsunk
          obtain ⟨m, gt2, hrun, hm1, hm2⟩ := ih _ sunk (moves + 1) hinvH (Or.inr (by omega))
          exact ⟨m, gt2, hrun, by omega, by rw [List.length_cons]; omega⟩

/-- C10 (amended): for every configuration with `N ≥ 1` that passes
    `BattleshipBoard` construction and whose declared ship types all have
    positive length and breadth, `BruteForceAgent.start_game` reaches
    neither error branch: it returns `(moves, "")` with
    `1 ≤ moves ≤ N * N`. -/
theorem brute_force_completes (cfg : BoardConfig) (st : BoardState)
    (hok : boardInit cfg emptyDict = .ok st)
    (hdims : ∀ s ∈ cfg.ships, 1 ≤ s.length ∧ 1 ≤ s.breadth)
    (hn : 1 ≤ cfg.n) :
    ∃ m : Nat, (bruteForceStart cfg st).1 = ((m : Int), "") ∧ 1 ≤ m ∧ m ≤ cfg.n * cfg.n := by
  obtain ⟨sc, ps, hsc, hps, hstn, hstg, hstd⟩ := boardInit_ok hok
  have hinit : PlacedOK cfg.n 0 (fun _ => (0 : Int)) emptyDict := by
    refine ⟨fun p => ⟨le_refl 0, by simp⟩, fun p hp => absurd rfl hp,
      fun k hk1 hk2 => by omega⟩
  obtain ⟨hK, hplaced⟩ := placeShips_ok cfg.ships _ ps hps hdims hinit
  have htot : totalShipsOf cfg.ships = ps.id := by
    unfold totalShipsOf
    rw [hK]
    have hmc : cfg.ships.map (fun s => s.count)
        = cfg.ships.map (fun s => s.positions.length) :=
      List.map_congr_left (fun s hs => scanShips_counts hsc s hs)
    rw [hmc]
    dsimp only
    omega
  have hbi : BruteInv cfg.n ps.id st (rowMajor cfg.n) 0 := by
    obtain ⟨hv, hb, hc⟩ := hplaced
    refine ⟨rowMajor_nodup, ?_, ?_, ?_, ?_, ?_, ?_⟩
    · intro q
      rw [hstg]
      have h1 := (hv q).1
      have h2 := (hv q).2
      omega
    · intro q hq1 hq2
      rw [hstg] at hq1
      exact hb q hq1
    · intro j hj1 hj2
      rw [hstg, hstd]
      exact (hc j hj1 hj2).1
    · intro q hq
      rw [hstg] at hq
      rw [mem_rowMajor]
      exact hb q (by omega)
    · intro q hq
      rw [hstg]
      have h1 := (hv q).1
      omega
    · rw [hstg]
      unfold destroyedCount
      have hempty : (Finset.Icc 1 ps.id).filter
          (fun j => (cellsOf cfg.n ps.grid j).card = 0) = ∅ := by
        rw [Finset.filter_eq_empty_iff]
        intro j hj
        rw [Finset.mem_Icc] at hj
        have h2 := (hc j hj.1 hj.2).2
        omega
      rw [hempty, Finset.card_empty]
  have hnonempty : rowMajor cfg.n ≠ [] := by
    have hm : ((0 : Nat), (0 : Nat)) ∈ rowMajor cfg.n := mem_rowMajor.mpr ⟨by omega, by omega⟩
    exact List.ne_nil_of_mem hm
  obtain ⟨m, gt2, hrun, hm1, hm2⟩ :=
    bruteLoop_completes (rowMajor cfg.n) st 0 0 hbi (Or.inl hnonempty)
  refine ⟨m, ?_, by omega, ?_⟩
  · unfold bruteForceStart
    rw [htot, hrun]
  · rw [rowMajor_length] at hm2
    omega

/-- Witness for `brute_force_completes` at the single-1×1-ship board. -/
theorem brute_force_completes_witness :
    ∃ m : Nat, (bruteForceStart cfgSolo soloGt).1 = ((m : Int), "")
      ∧ 1 ≤ m ∧ m ≤ cfgSolo.n * cfgSolo.n :=
  brute_force_completes cfgSolo soloGt rfl (by decide) (by decide)

theorem chain_repair {R : Nat × Nat → Prop} {V : Nat × Nat → Bool} {w a : Nat × Nat} :
    ∀ {t : Nat × Nat}, SinkChain R V a t →
      Function.update V w true t = false →
      SinkChain R (Function.update V w true) a t
        ∨ (R w ∧ SinkChain R (Function.update V w true) w t) := by
  intro t h
  induction h with
  | refl => intro _; exact Or.inl Relation.ReflTransGen.refl
  | tail h1 hstep ih =>
    rename_i m c
    intro ht
    have hstep2 : SinkStep R (Function.update V w true) m c := ⟨hstep.1, hstep.2.1, ht⟩
    by_cases hm : Function.update V w true m = false
    · rcases ih hm with h2 | ⟨hw, h2⟩
      · exact Or.inl (h2.tail hstep2)
      · exact Or.inr ⟨hw, h2.tail hstep2⟩
    · rcases eq_or_ne m w with rfl | hmw
      · rcases Relation.ReflTransGen.cases_tail h1 with heq | ⟨d, hd1, hd2⟩
        · subst heq
          exact Or.inl (Relation.ReflTransGen.single hstep2)
        · exact Or.inr ⟨hd2.2.1, Relation.ReflTransGen.single hstep2⟩
      · have hVm : V m = true := by
          rcases Bool.eq_false_or_eq_true (V m) with htr | hf
          · exact htr
          · exact absurd (by rw [Function.update_noteq hmw]; exact hf) hm
        rcases Relation.ReflTransGen.cases_tail h1 with heq | ⟨d, hd1, hd2⟩
        · subst heq
          exact Or.inl (Relation.ReflTransGen.single hstep2)
        · rw [hd2.2.2] at hVm
          exact absurd hVm (by decide)

theorem chain_head {R : Nat × Nat → Prop} {V : Nat × Nat → Bool} {a t : Nat × Nat}
    (h : SinkChain R V a t) (hne : t ≠ a) :
    ∃ v, SinkStep R V a v ∧ SinkChain R V v t := by
  rcases Relation.ReflTransGen.cases_head h with heq | ⟨v, hv1, hv2⟩
  · exact absurd heq.symm hne
  · exact ⟨v, hv1, hv2⟩

theorem adj_mem_nbrs {p v : Nat × Nat} (h : AdjCell p v) :
    ((v.1 : Int), (v.2 : Int)) ∈ nbrs p := by
  unfold nbrs
  rcases h with ⟨h1, h2 | h2⟩ | ⟨h1, h2 | h2⟩
  · have hEq : ((v.1 : Int), (v.2 : Int)) = ((p.1 : Int), (p.2 : Int) - 1) := by
      rw [Prod.mk.injEq]
      constructor <;> omega
    rw [hEq]
    simp
  · have hEq : ((v.1 : Int), (v.2 : Int)) = ((p.1 : Int), (p.2 : Int) + 1) := by
      rw [Prod.mk.injEq]
      constructor <;> omega
    rw [hEq]
    simp
  · have hEq : ((v.1 : Int), (v.2 : Int)) = ((p.1 : Int) - 1, (p.2 : Int)) := by
      rw [Prod.mk.injEq]
      constructor <;> omega
    rw [hEq]
    simp
  · have hEq : ((v.1 : Int), (v.2 : Int)) = ((p.1 : Int) + 1, (p.2 : Int)) := by
      rw [Prod.mk.injEq]
      constructor <;> omega
    rw [hEq]
    simp

theorem chain_row_up {R : Nat × Nat → Prop} {V : Nat × Nat → Bool} {c : Nat} :
    ∀ (d a : Nat),
      (∀ i, a < i → i ≤ a + d → R (i, c) ∧ V (i, c) = false) →
      SinkChain R V (a, c) (a + d, c) := by
  intro d
  induction d with
  | zero => intro a _; exact Relation.ReflTransGen.refl
  | succ d ih =>
    intro a h
    have hchain := ih a (fun i h1 h2 => h i h1 (by omega))
    have hstep : SinkStep R V (a + d, c) (a + d + 1, c) :=
      ⟨Or.inr ⟨rfl, Or.inr rfl⟩, (h (a + d + 1) (by omega) (by omega)).1,
       (h (a + d + 1) (by omega) (by omega)).2⟩
    exact hchain.tail hstep

theorem chain_row_down {R : Nat × Nat → Prop} {V : Nat × Nat → Bool} {c : Nat} :
    ∀ (d a : Nat),
      (∀ i, a ≤ i → i < a + d → R (i, c) ∧ V (i, c) = false) →
      SinkChain R V (a + d, c) (a, c) := by
  intro d
  induction d with
  | zero => intro a _; exact Relation.ReflTransGen.refl
  | succ d ih =>
    intro a h
    have hstep : SinkStep R V (a + d + 1, c) (a + d, c) :=
      ⟨Or.inr ⟨rfl, Or.inl rfl⟩, (h (a + d) (by omega) (by omega)).1,
       (h (a + d) (by omega) (by omega)).2⟩
    exact Relation.ReflTransGen.head hstep (ih a (fun i h1 h2 => h i h1 (by omega)))

theorem chain_col_up {R : Nat × Nat → Prop} {V : Nat × Nat → Bool} {r : Nat} :
    ∀ (d a : Nat),
      (∀ j, a < j → j ≤ a + d → R (r, j) ∧ V (r, j) = false) →
      SinkChain R V (r, a) (r, a + d) := by
  intro d
  induction d with
  | zero => intro a _; exact Relation.ReflTransGen.refl
  | succ d ih =>
    intro a h
    have hchain := ih a (fun j h1 h2 => h j h1 (by omega))
    have hstep : SinkStep R V (r, a + d) (r, a + d + 1) :=
      ⟨Or.inl ⟨rfl, Or.inr rfl⟩, (h (a + d + 1) (by omega) (by omega)).1,
       (h (a + d + 1) (by omega) (by omega)).2⟩
    exact hchain.tail hstep

theorem chain_col_down {R : Nat × Nat → Prop} {V : Nat × Nat → Bool} {r : Nat} :
    ∀ (d a : Nat),
      (∀ j, a ≤ j → j < a + d → R (r, j) ∧ V (r, j) = false) →
      SinkChain R V (r, a + d) (r, a) := by
  intro d
  induction d with
  | zero => intro a _; exact Relation.ReflTransGen.refl
  | succ d ih =>
    intro a h
    have hstep : SinkStep R V (r, a + d + 1) (r, a + d) :=
      ⟨Or.inl ⟨rfl, Or.inl rfl⟩, (h (a + d) (by omega) (by omega)).1,
       (h (a + d) (by omega) (by omega)).2⟩
    exact Relation.ReflTransGen.head hstep (ih a (fun j h1 h2 => h j h1 (by omega)))

theorem rect_connected {x y l b : Nat} {start t : Nat × Nat} {V : Nat × Nat → Bool}
    (hs : inRect x y l b start) (ht : inRect x y l b t)
    (hV : ∀ p, inRect x y l b p → (V p = true ↔ p = start))
    (hne : t ≠ start) :
    SinkChain (inRect x y l b) V start t := by
  obtain ⟨s1, s2⟩ := start
  obtain ⟨t1, t2⟩ := t
  unfold inRect at hs ht
  dsimp at hs ht
  -- vertical leg from (s1, s2) to (t1, s2), then horizontal leg to (t1, t2)
  have hmid : SinkChain (inRect x y l b) V (s1, s2) (t1, s2) := by
    rcases Nat.le_total s1 t1 with hle | hle
    · have hd : t1 = s1 + (t1 - s1) := by omega
      rw [hd]
      apply chain_row_up
      intro i h1 h2
      refine ⟨by unfold inRect; dsimp; omega, ?_⟩
      rcases Bool.eq_false_or_eq_true (V (i, s2)) with htr | hf
      · have := (hV (i, s2) (by unfold inRect; dsimp; omega)).mp htr
        rw [Prod.mk.injEq] at this
        omega
      · exact hf
    · have hd : s1 = t1 + (s1 - t1) := by omega
      rw [hd] at hs ⊢
      apply chain_row_down
      intro i h1 h2
      refine ⟨by unfold inRect; dsimp; omega, ?_⟩
      rcases Bool.eq_false_or_eq_true (V (i, s2)) with htr | hf
      · have := (hV (i, s2) (by unfold inRect; dsimp; omega)).mp htr
        rw [Prod.mk.injEq] at this
        omega
      · exact hf
  have hlast : SinkChain (inRect x y l b) V (t1, s2) (t1, t2) := by
    rcases Nat.le_total s2 t2 with hle | hle
    · have hd : t2 = s2 + (t2 - s2) := by omega
      rw [hd]
      apply chain_col_up
      intro j h1 h2
      refine ⟨by unfold inRect; dsimp; omega, ?_⟩
      rcases Bool.eq_false_or_eq_true (V (t1, j)) with htr | hf
      · have := (hV (t1, j) (by unfold inRect; dsimp; omega)).mp htr
        rw [Prod.mk.injEq] at this
        omega
      · exact hf
    · have hd : s2 = t2 + (s2 - t2) := by omega
      rw [hd] at hmid ⊢
      apply chain_col_down
      intro j h1 h2
      refine ⟨by unfold inRect; dsimp; omega, ?_⟩
      rcases Bool.eq_false_or_eq_true (V (t1, j)) with htr | hf
      · have := (hV (t1, j) (by unfold inRect; dsimp; omega)).mp htr
        rw [Prod.mk.injEq] at this
        -- (t1, j) = (s1, s2) with j in the open segment between s2 and t2
        omega
      · exact hf
  exact hmid.trans hlast

theorem gridCells_card {n : Nat} : (gridCells n).card = n * n := by
  unfold gridCells
  rw [Finset.card_product, Finset.card_range]

theorem filter_update_card {F : Finset (Nat × Nat)} {V : Nat × Nat → Bool} {w : Nat × Nat}
    (hw : w ∈ F) (hv : V w = false) :
    F.filter (fun p => Function.update V w true p = true)
      = insert w (F.filter (fun p => V p = true)) := by
  ext q
  simp only [Finset.mem_filter, Finset.mem_insert]
  rcases eq_or_ne q w with rfl | hne
  · rw [Function.update_same]
    constructor
    · intro _
      exact Or.inl rfl
    · intro _
      exact ⟨hw, rfl⟩
  · rw [Function.update_noteq hne]
    constructor
    · rintro ⟨h1, h2⟩
      exact Or.inr ⟨h1, h2⟩
    · rintro (rfl | ⟨h1, h2⟩)
      · exact absurd rfl hne
      · exact ⟨h1, h2⟩

theorem filter_update_out {F : Finset (Nat × Nat)} {V : Nat × Nat → Bool} {w : Nat × Nat}
    (hw : w ∉ F) :
    F.filter (fun p => Function.update V w true p = true)
      = F.filter (fun p => V p = true) := by
  apply Finset.filter_congr
  intro q hq
  have hne : q ≠ w := fun hh => hw (hh ▸ hq)
  rw [Function.update_noteq hne]

theorem count_false_update {n : Nat} {V : Nat × Nat → Bool} {w : Nat × Nat}
    (hw : w ∈ gridCells n) (hv : V w = false) :
    ((gridCells n).filter (fun p => Function.update V w true p = false)).card + 1
      = ((gridCells n).filter (fun p => V p = false)).card := by
  have hset : (gridCells n).filter (fun p => V p = false)
      = insert w ((gridCells n).filter (fun p => Function.update V w true p = false)) := by
    ext q
    simp only [Finset.mem_filter, Finset.mem_insert]
    rcases eq_or_ne q w with rfl | hne
    · constructor
      · intro _
        exact Or.inl rfl
      · intro _
        exact ⟨hw, hv⟩
    · rw [Function.update_noteq hne]
      constructor
      · rintro ⟨h1, h2⟩
        exact Or.inr ⟨h1, h2⟩
      · rintro (rfl | ⟨h1, h2⟩)
        · exact absurd rfl hne
        · exact ⟨h1, h2⟩
  have hnot : w ∉ (gridCells n).filter (fun p => Function.update V w true p = false) := by
    intro hmem
    rw [Finset.mem_filter, Function.update_same] at hmem
    exact absurd hmem.2 (by decide)
  rw [hset, Finset.card_insert_of_not_mem hnot]

theorem sinkVisit_guard_true {n : Nat} {q : List (Nat × Nat)} {s : AgentState}
    {nb : Int × Int} {res : AttackResult} {gt2 : BoardState}
    (hb : 0 ≤ nb.1 ∧ nb.1 < (n : Int) ∧ 0 ≤ nb.2 ∧ nb.2 < (n : Int)
      ∧ s.visited (nb.1.toNat, nb.2.toNat) = false)
    (hatk : attackCell s.gt (nb.1.toNat, nb.2.toNat) = (res, gt2)) :
    sinkVisit n (q, s) nb =
      (let p := (nb.1.toNat, nb.2.toNat)
       let s2 : AgentState := AgentState.mk gt2 (Function.update s.visited p true)
         (s.moves + 1) s.shipsSunk (s.trace ++ [p])
       if res = .HIT then (q ++ [p], s2)
       else if res = .SUNK then (q, { s2 with shipsSunk := s2.shipsSunk + 1 })
       else (q, s2)) := by
  unfold sinkVisit agentAttack
  rw [if_pos hb]
  dsimp only
  rw [hatk]

theorem sinkVisit_inv {n x y l b s0 : Nat} {pp : Nat × Nat}
    (hxl : x + l ≤ n) (hyb : y + b ≤ n)
    {qAcc : List (Nat × Nat)} {s : AgentState} {nb : Int × Int}
    (hI : SinkMid n x y l b s0 pp qAcc s) :
    SinkMid n x y l b s0 pp (sinkVisit n (qAcc, s) nb).1 (sinkVisit n (qAcc, s) nb).2
    ∧ ((0 ≤ nb.1 ∧ nb.1 < (n : Int) ∧ 0 ≤ nb.2 ∧ nb.2 < (n : Int)) →
        (sinkVisit n (qAcc, s) nb).2.visited (nb.1.toNat, nb.2.toNat) = true)
    ∧ 5 * unvisitedCount n (sinkVisit n (qAcc, s) nb).2 + (sinkVisit n (qAcc, s) nb).1.length
        ≤ 5 * unvisitedCount n s + qAcc.length
    ∧ (∀ c, s.visited c = true → (sinkVisit n (qAcc, s) nb).2.visited c = true) := by
  obtain ⟨hI1, hI2, hI3, hI4, hI5⟩ := hI
  by_cases hg : (0 ≤ nb.1 ∧ nb.1 < (n : Int) ∧ 0 ≤ nb.2 ∧ nb.2 < (n : Int)
      ∧ s.visited (nb.1.toNat, nb.2.toNat) = false)
  case neg =>
    have hEq : sinkVisit n (qAcc, s) nb = (qAcc, s) := by
      unfold sinkVisit
      rw [if_neg hg]
    rw [hEq]
    refine ⟨⟨hI1, hI2, hI3, hI4, hI5⟩, ?_, le_refl _, fun c hc => hc⟩
    intro hbnd
    rcases Bool.eq_false_or_eq_true (s.visited (nb.1.toNat, nb.2.toNat)) with htr | hf
    · exact htr
    · exact absurd ⟨hbnd.1, hbnd.2.1, hbnd.2.2.1, hbnd.2.2.2, hf⟩ hg
  case pos =>
    obtain ⟨hb1, hb2, hb3, hb4, hunvis⟩ := hg
    have hpm : (nb.1.toNat, nb.2.toNat) ∈ gridCells n := by
      unfold gridCells
      rw [Finset.mem_product, Finset.mem_range, Finset.mem_range]
      constructor <;> dsimp <;> omega
    have hcu := count_false_update (V := s.visited) hpm hunvis
    by_cases hR : inRect x y l b (nb.1.toNat, nb.2.toNat)
    · -- the probed neighbour is a target cell (grid value 1)
      have hgrid1 : s.gt.grid (nb.1.toNat, nb.2.toNat) = ((1 : Nat) : Int) := by
        rw [hI1, hunvis, if_neg (by decide), if_pos hR, Nat.cast_one]
      have hship := attackCell_ship hgrid1 (le_refl 1)
      rw [Nat.cast_one] at hship
      have hwrect : (nb.1.toNat, nb.2.toNat) ∈ rectCells n x y l b := by
        unfold rectCells
        rw [Finset.mem_filter]
        exact ⟨hpm, hR⟩
      have hnotm : (nb.1.toNat, nb.2.toNat)
          ∉ (rectCells n x y l b).filter (fun p => s.visited p = true) := by
        intro hmem
        rw [Finset.mem_filter, hunvis] at hmem
        exact absurd hmem.2 (by decide)
      have hins := filter_update_card (V := s.visited) hwrect hunvis
      have hcard' : ((rectCells n x y l b).filter
            (fun p => Function.update s.visited (nb.1.toNat, nb.2.toNat) true p = true)).card
          = ((rectCells n x y l b).filter (fun p => s.visited p = true)).card + 1 := by
        rw [hins, Finset.card_insert_of_not_mem hnotm]
      have hrcard : (rectCells n x y l b).card = l * b := rectCells_card hxl hyb
      have hfle : ((rectCells n x y l b).filter (fun p => s.visited p = true)).card ≤ l * b := by
        calc ((rectCells n x y l b).filter (fun p => s.visited p = true)).card
            ≤ (rectCells n x y l b).card := Finset.card_filter_le _ _
          _ = l * b := hrcard
      have holdne : (rectCells n x y l b).filter (fun p => s.visited p = true)
          ≠ rectCells n x y l b := by
        intro hEq2
        rw [hEq2] at hnotm
        exact hnotm hwrect
      by_cases hd : s.gt.shipCells 1 - 1 = 0
      · -- SUNK: this was the target's last unstruck cell
        have hres : attackCell s.gt (nb.1.toNat, nb.2.toNat)
            = (AttackResult.SUNK,
               { s.gt with grid := Function.update s.gt.grid (nb.1.toNat, nb.2.toNat) (-1),
                           shipCells := Function.update s.gt.shipCells 1
                             (s.gt.shipCells 1 - 1) }) := by
          rw [hship, if_pos hd]
        have hEq := sinkVisit_guard_true (q := qAcc) ⟨hb1, hb2, hb3, hb4, hunvis⟩ hres
        rw [hEq]
        dsimp only
        rw [if_neg (show ¬ (AttackResult.SUNK = AttackResult.HIT) by decide), if_pos rfl]
        have hfull : (rectCells n x y l b).filter
              (fun p => Function.update s.visited (nb.1.toNat, nb.2.toNat) true p = true)
            = rectCells n x y l b := by
          apply Finset.eq_of_subset_of_card_le (Finset.filter_subset _ _)
          rw [hcard', hrcard]
          rw [hI2] at hd
          omega
        refine ⟨⟨?_, ?_, ?_, ?_, ?_⟩, ?_, ?_, ?_⟩
        · intro q2
          dsimp only
          rcases eq_or_ne q2 (nb.1.toNat, nb.2.toNat) with rfl | hne
          · rw [Function.update_same, Function.update_same]
            simp
          · rw [Function.update_noteq hne, Function.update_noteq hne]
            exact hI1 q2
        · dsimp only
          rw [Function.update_same, hcard', hI2]
          push_cast
          omega
        · intro c hc
          dsimp only
          exact ⟨update_true_keep (hI3 c hc).1, (hI3 c hc).2⟩
        · intro t hRt hvt
          dsimp only at hvt
          exfalso
          have htm : t ∈ rectCells n x y l b := by
            unfold rectCells
            rw [Finset.mem_filter]
            refine ⟨?_, hRt⟩
            unfold gridCells
            rw [Finset.mem_product, Finset.mem_range, Finset.mem_range]
            unfold inRect at hRt
            omega
          rw [← hfull, Finset.mem_filter] at htm
          rw [htm.2] at hvt
          exact Bool.noConfusion hvt
        · dsimp only
          rw [hfull, if_pos rfl, hI5, if_neg holdne]
        · intro _
          dsimp only
          rw [Function.update_same]
        · dsimp only
          unfold unvisitedCount
          dsimp only
          omega
        · intro c hc
          dsimp only
          exact update_true_keep hc
      · -- HIT: the target still has unstruck cells; the neighbour is enqueued
        have hres : attackCell s.gt (nb.1.toNat, nb.2.toNat)
            = (AttackResult.HIT,
               { s.gt with grid := Function.update s.gt.grid (nb.1.toNat, nb.2.toNat) (-1),
                           shipCells := Function.update s.gt.shipCells 1
                             (s.gt.shipCells 1 - 1) }) := by
          rw [hship, if_neg hd]
        have hEq := sinkVisit_guard_true (q := qAcc) ⟨hb1, hb2, hb3, hb4, hunvis⟩ hres
        rw [hEq]
        dsimp only
        rw [if_pos rfl]
        have hnfull : (rectCells n x y l b).filter
              (fun p => Function.update s.visited (nb.1.toNat, nb.2.toNat) true p = true)
            ≠ rectCells n x y l b := by
          intro hEq2
          have hcc : ((rectCells n x y l b).filter
              (fun p => Function.update s.visited (nb.1.toNat, nb.2.toNat) true p = true)).card
              = l * b := by
            rw [hEq2, hrcard]
          rw [hcard'] at hcc
          rw [hI2] at hd
          omega
        refine ⟨⟨?_, ?_, ?_, ?_, ?_⟩, ?_, ?_, ?_⟩
        · intro q2
          dsimp only
          rcases eq_or_ne q2 (nb.1.toNat, nb.2.toNat) with rfl | hne
          · rw [Function.update_same, Function.update_same]
            simp
          · rw [Function.update_noteq hne, Function.update_noteq hne]
            exact hI1 q2
        · dsimp only
          rw [Function.update_same, hcard', hI2]
          push_cast
          omega
        · intro c hc
          dsimp only
          rcases List.mem_append.mp hc with hcl | hcr
          · exact ⟨update_true_keep (hI3 c hcl).1, (hI3 c hcl).2⟩
          · rw [List.mem_singleton] at hcr
            subst hcr
            exact ⟨Function.update_same .., hR⟩
        · intro t hRt hvt
          dsimp only at hvt ⊢
          have htne : t ≠ (nb.1.toNat, nb.2.toNat) := by
            intro hh
            rw [hh, Function.update_same] at hvt
            exact Bool.noConfusion hvt
          have hvold : s.visited t = false := by
            rwa [Function.update_noteq htne] at hvt
          rcases hI4 t hRt hvold with ⟨c, hc, hchain⟩ | hchain
          · rcases chain_repair hchain hvt with hnew | ⟨hRw, hnew⟩
            · exact Or.inl ⟨c, List.mem_append_left _ hc, hnew⟩
            · exact Or.inl ⟨(nb.1.toNat, nb.2.toNat),
                List.mem_append_right _ (List.mem_singleton.mpr rfl), hnew⟩
          · rcases chain_repair hchain hvt with hnew | ⟨hRw, hnew⟩
            · exact Or.inr hnew
            · exact Or.inl ⟨(nb.1.toNat, nb.2.toNat),
                List.mem_append_right _ (List.mem_singleton.mpr rfl), hnew⟩
        · dsimp only
          rw [if_neg hnfull, hI5, if_neg holdne]
        · intro _
          dsimp only
          rw [Function.update_same]
        · dsimp only
          unfold unvisitedCount
          dsimp only
          rw [List.length_append, List.length_singleton]
          omega
        · intro c hc
          dsimp only
          exact update_true_keep hc
    · -- the probed neighbour is empty (grid value 0): MISS
      have hgrid0 : s.gt.grid (nb.1.toNat, nb.2.toNat) = 0 := by
        rw [hI1, hunvis, if_neg (by decide), if_neg hR]
      have hres := attackCell_miss hgrid0
      have hEq := sinkVisit_guard_true (q := qAcc) ⟨hb1, hb2, hb3, hb4, hunvis⟩ hres
      rw [hEq]
      dsimp only
      rw [if_neg (show ¬ (AttackResult.MISS = AttackResult.HIT) by decide),
        if_neg (show ¬ (AttackResult.MISS = AttackResult.SUNK) by decide)]
      have hout : (nb.1.toNat, nb.2.toNat) ∉ rectCells n x y l b := by
        intro hmem
        unfold rectCells at hmem
        rw [Finset.mem_filter] at hmem
        exact hR hmem.2
      have hfeq := filter_update_out (V := s.visited) hout
      refine ⟨⟨?_, ?_, ?_, ?_, ?_⟩, ?_, ?_, ?_⟩
      · intro q2
        dsimp only
        rcases eq_or_ne q2 (nb.1.toNat, nb.2.toNat) with rfl | hne
        · rw [Function.update_same, Function.update_same]
          simp
        · rw [Function.update_noteq hne, Function.update_noteq hne]
          exact hI1 q2
      · dsimp only
        rw [hfeq]
        exact hI2
      · intro c hc
        dsimp only
        exact ⟨update_true_keep (hI3 c hc).1, (hI3 c hc).2⟩
      · intro t hRt hvt
        dsimp only at hvt ⊢
        have htne : t ≠ (nb.1.toNat, nb.2.toNat) := by
          intro hh
          rw [hh, Function.update_same] at hvt
          exact Bool.noConfusion hvt
        have hvold : s.visited t = false := by
          rwa [Function.update_noteq htne] at hvt
        rcases hI4 t hRt hvold with ⟨c, hc, hchain⟩ | hchain
        · rcases chain_repair hchain hvt with hnew | ⟨hRw, hnew⟩
          · exact Or.inl ⟨c, hc, hnew⟩
          · exact absurd hRw hR
        · rcases chain_repair hchain hvt with hnew | ⟨hRw, hnew⟩
          · exact Or.inr hnew
          · exact absurd hRw hR
      · dsimp only
        rw [hfeq]
        exact hI5
      · intro _
        dsimp only
        rw [Function.update_same]
      · dsimp only
        unfold unvisitedCount
        dsimp only
        omega
      · intro c hc
        dsimp only
        exact update_true_keep hc

theorem sinkFold_inv {n x y l b s0 : Nat} {pp : Nat × Nat}
    (hxl : x + l ≤ n) (hyb : y + b ≤ n) :
    ∀ (L : List (Int × Int)) (q : List (Nat × Nat)) (s : AgentState),
      SinkMid n x y l b s0 pp q s →
      SinkMid n x y l b s0 pp (L.foldl (sinkVisit n) (q, s)).1 (L.foldl (sinkVisit n) (q, s)).2
      ∧ (∀ nb ∈ L, (0 ≤ nb.1 ∧ nb.1 < (n : Int) ∧ 0 ≤ nb.2 ∧ nb.2 < (n : Int)) →
          (L.foldl (sinkVisit n) (q, s)).2.visited (nb.1.toNat, nb.2.toNat) = true)
      ∧ 5 * unvisitedCount n (L.foldl (sinkVisit n) (q, s)).2
          + (L.foldl (sinkVisit n) (q, s)).1.length
          ≤ 5 * unvisitedCount n s + q.length
      ∧ (∀ c, s.visited c = true → (L.foldl (sinkVisit n) (q, s)).2.visited c = true) := by
  intro L
  induction L with
  | nil =>
    intro q s h
    exact ⟨h, fun nb hnb => absurd hnb (List.not_mem_nil nb), le_refl _, fun c hc => hc⟩
  | cons nb0 L2 ih =>
    intro q s h
    obtain ⟨hmid, hvis0, hmeas0, hmono0⟩ := @sinkVisit_inv n x y l b s0 pp hxl hyb q s nb0 h
    obtain ⟨ih1, ih2, ih3, ih4⟩ := ih (sinkVisit n (q, s) nb0).1 (sinkVisit n (q, s) nb0).2 hmid
    refine ⟨ih1, ?_, ?_, ?_⟩
    · intro nb hnb hbnd
      rcases List.mem_cons.mp hnb with rfl | hmem
      · exact ih4 _ (hvis0 hbnd)
      · exact ih2 nb hmem hbnd
    · exact le_trans ih3 hmeas0
    · intro c hc
      exact ih4 c (hmono0 c hc)

theorem sinkLoop_run {n x y l b s0 : Nat} (hxl : x + l ≤ n) (hyb : y + b ≤ n) :
    ∀ (fuel : Nat) (q : List (Nat × Nat)) (s : AgentState),
      SinkLoopInv n x y l b s0 q s →
      5 * unvisitedCount n s + q.length ≤ fuel →
      SinkLoopInv n x y l b s0 [] (sinkLoop n fuel q s) := by
  intro fuel
  induction fuel with
  | zero =>
    intro q s hinv hm
    have hq : q = [] := by
      cases q with
      | nil => rfl
      | cons a as =>
        exfalso
        rw [List.length_cons] at hm
        omega
    subst hq
    exact hinv
  | succ f ih =>
    intro q s hinv hm
    cases q with
    | nil => exact hinv
    | cons p qs =>
      obtain ⟨hI1, hI2, hI3, hI4, hI5⟩ := hinv
      have hmid : SinkMid n x y l b s0 p qs s := by
        refine ⟨hI1, hI2, fun c hc => hI3 c (List.mem_cons_of_mem p hc), ?_, hI5⟩
        intro t hRt hvt
        rcases hI4 t hRt hvt with ⟨c, hc, hchain⟩
        rcases List.mem_cons.mp hc with rfl | hmem
        · exact Or.inr hchain
        · exact Or.inl ⟨c, hmem, hchain⟩
      obtain ⟨hmid2, hvisL, hmeas, hmono⟩ := sinkFold_inv hxl hyb (nbrs p) qs s hmid
      obtain ⟨hJ1, hJ2, hJ3, hJ4, hJ5⟩ := hmid2
      have hppvis : ((nbrs p).foldl (sinkVisit n) (qs, s)).2.visited p = true :=
        hmono p (hI3 p (List.mem_cons_self p qs)).1
      have hI4r : ∀ t, inRect x y l b t →
          ((nbrs p).foldl (sinkVisit n) (qs, s)).2.visited t = false →
          ∃ c ∈ ((nbrs p).foldl (sinkVisit n) (qs, s)).1,
            SinkChain (inRect x y l b) ((nbrs p).foldl (sinkVisit n) (qs, s)).2.visited c t := by
        intro t hRt hvt
        rcases hJ4 t hRt hvt with hq2 | hchain
        · exact hq2
        · exfalso
          have htp : t ≠ p := by
            intro hh
            rw [hh, hppvis] at hvt
            exact Bool.noConfusion hvt
          obtain ⟨v, hstep, _⟩ := chain_head hchain htp
          obtain ⟨hadj, hRv, hvv⟩ := hstep
          have hvb : v.1 < n ∧ v.2 < n := by
            unfold inRect at hRv
            omega
          have hmem := adj_mem_nbrs hadj
          have hvtrue := hvisL _ hmem
            ⟨by dsimp only; omega, by dsimp only; exact_mod_cast hvb.1,
             by dsimp only; omega, by dsimp only; exact_mod_cast hvb.2⟩
          dsimp only at hvtrue
          rw [Int.toNat_natCast, Int.toNat_natCast] at hvtrue
          have hvv2 : ((nbrs p).foldl (sinkVisit n) (qs, s)).2.visited (v.1, v.2) = false := hvv
          rw [hvtrue] at hvv2
          exact Bool.noConfusion hvv2
      unfold sinkLoop
      dsimp only
      refine ih _ _ ⟨hJ1, hJ2, hJ3, hI4r, hJ5⟩ ?_
      refine le_trans hmeas ?_
      rw [List.length_cons] at hm
      omega

/-- What `OptimalAgent.sink`'s unreachable body would do.  On a board
    holding a single rectangular target (ship id 1, an in-bounds `l × b`
    rectangle anchored at `(x, y)`), started right after the first HIT on
    any cell `start` of that target — so `start` is the only visited target
    cell, the ground truth mirrors the visited mask, and the ship's
    remaining count is `l·b − 1` — and given enough fuel for its `while`
    loop, the BFS strikes every cell of the target, increments the
    destroyed-target counter exactly once (on the SUNK outcome, whose cell
    is not enqueued), drives the ship's remaining count to zero, and
    destroys nothing outside the target.  In the source this loop never
    runs: `sink` raises NameError before it (see `sink_raises_name_error`). -/
theorem sinkLoop_floods_rect
    (n x y l b fuel : Nat) (start : Nat × Nat) (s : AgentState)
    (hxl : x + l ≤ n) (hyb : y + b ≤ n)
    (harea : 2 ≤ l * b)
    (hstart : inRect x y l b start)
    (hgrid : ∀ p, s.gt.grid p = if s.visited p = true then -1
        else if inRect x y l b p then 1 else 0)
    (hvis : ∀ p, inRect x y l b p → (s.visited p = true ↔ p = start))
    (hcount : s.gt.shipCells 1 = ((l * b : Nat) : Int) - 1)
    (hfuel : 5 * (n * n) + 1 ≤ fuel) :
    (∀ p, inRect x y l b p → (sinkLoop n fuel [start] s).gt.grid p = -1)
    ∧ (sinkLoop n fuel [start] s).shipsSunk = s.shipsSunk + 1
    ∧ (sinkLoop n fuel [start] s).gt.shipCells 1 = 0
    ∧ (∀ p, ¬ inRect x y l b p → (sinkLoop n fuel [start] s).gt.grid p ≤ 0) := by
  have hstartb : start.1 < n ∧ start.2 < n := by
    unfold inRect at hstart
    omega
  have hstartm : start ∈ rectCells n x y l b := by
    unfold rectCells gridCells
    rw [Finset.mem_filter, Finset.mem_product, Finset.mem_range, Finset.mem_range]
    exact ⟨⟨hstartb.1, hstartb.2⟩, hstart⟩
  have hfilter : (rectCells n x y l b).filter (fun p => s.visited p = true) = {start} := by
    ext q
    rw [Finset.mem_filter, Finset.mem_singleton]
    constructor
    · rintro ⟨hq1, hq2⟩
      unfold rectCells at hq1
      exact (hvis q (Finset.mem_filter.mp hq1).2).mp hq2
    · rintro rfl
      exact ⟨hstartm, (hvis _ hstart).mpr rfl⟩
  have hrcard : (rectCells n x y l b).card = l * b := rectCells_card hxl hyb
  have hinv : SinkLoopInv n x y l b s.shipsSunk [start] s := by
    refine ⟨hgrid, ?_, ?_, ?_, ?_⟩
    · rw [hfilter, Finset.card_singleton, hcount]
      push_cast
      ring
    · intro c hc
      rw [List.mem_singleton] at hc
      rw [hc]
      exact ⟨(hvis start hstart).mpr rfl, hstart⟩
    · intro t hRt hvt
      refine ⟨start, List.mem_singleton.mpr rfl, ?_⟩
      refine rect_connected hstart hRt hvis ?_
      intro hh
      rw [hh, (hvis start hstart).mpr rfl] at hvt
      exact Bool.noConfusion hvt
    · rw [hfilter]
      have h2 : ({start} : Finset (Nat × Nat)) ≠ rectCells n x y l b := by
        intro hEq
        have h3 := congrArg Finset.card hEq
        rw [Finset.card_singleton, hrcard] at h3
        omega
      rw [if_neg h2]
      omega
  have hU : unvisitedCount n s ≤ n * n := by
    unfold unvisitedCount
    calc ((gridCells n).filter (fun p => s.visited p = false)).card
        ≤ (gridCells n).card := Finset.card_filter_le _ _
      _ = n * n := gridCells_card
  have hfin := sinkLoop_run hxl hyb fuel [start] s hinv
    (by rw [List.length_singleton]; omega)
  obtain ⟨hF1, hF2, hF3, hF4, hF5⟩ := hfin
  have hallvis : ∀ p, inRect x y l b p → (sinkLoop n fuel [start] s).visited p = true := by
    intro p hp
    rcases Bool.eq_false_or_eq_true ((sinkLoop n fuel [start] s).visited p) with htr | hf
    · exact htr
    · obtain ⟨c, hc, _⟩ := hF4 p hp hf
      cases hc
  have hfullF : (rectCells n x y l b).filter
      (fun p => (sinkLoop n fuel [start] s).visited p = true) = rectCells n x y l b := by
    apply Finset.filter_true_of_mem
    intro q hq
    unfold rectCells at hq
    exact hallvis q (Finset.mem_filter.mp hq).2
  refine ⟨?_, ?_, ?_, ?_⟩
  · intro p hp
    rw [hF1 p, hallvis p hp, if_pos rfl]
  · rw [hF5, hfullF, if_pos rfl]
  · rw [hF2, hfullF, hrcard]
    push_cast
    ring
  · intro p hp
    rw [hF1 p]
    rcases Bool.eq_false_or_eq_true ((sinkLoop n fuel [start] s).visited p) with htr | hf
    · rw [htr, if_pos rfl]
      omega
    · rw [hf, if_neg (by decide), if_neg hp]

/-- C6: `OptimalAgent.sink` never flood-fills.  `agent.py` binds no name
    `deque` (its module namespace holds only `ABC`, `abstractmethod`,
    `Tuple`, `np`, `BattleshipAgentBoard` and `AttackResult`), so the first
    statement `queue = deque([(ar, ac)])` raises NameError on every call,
    whatever cell was hit and whatever the board looks like — no neighbour
    is ever attacked, no target cell is struck, and the destroyed-target
    counter is never incremented.  The `while` loop that follows the
    failing statement would have been correct: on the 2 × 2 board with the
    single 1 × 2 target hit first at `(0, 0)` it strikes every target cell,
    bumps the counter exactly once, zeroes the remaining count and touches
    nothing outside the rectangle. -/
theorem sink_raises_name_error :
    (∀ (n fuel : Nat) (start : Nat × Nat) (s : AgentState),
        optimalSink n fuel start s = .error "NameError: name deque is not defined")
    ∧ (∀ p, inRect 0 0 1 2 p →
        (sinkLoop 2 21 [((0 : Nat), (0 : Nat))] sinkWitnessAgent).gt.grid p = -1)
    ∧ (sinkLoop 2 21 [((0 : Nat), (0 : Nat))] sinkWitnessAgent).shipsSunk
        = sinkWitnessAgent.shipsSunk + 1
    ∧ (sinkLoop 2 21 [((0 : Nat), (0 : Nat))] sinkWitnessAgent).gt.shipCells 1 = 0
    ∧ (∀ p, ¬ inRect 0 0 1 2 p →
        (sinkLoop 2 21 [((0 : Nat), (0 : Nat))] sinkWitnessAgent).gt.grid p ≤ 0) := by
  refine ⟨fun n fuel start s => rfl, ?_⟩
  exact sinkLoop_floods_rect 2 0 0 1 2 21 (0, 0) sinkWitnessAgent
    (by decide) (by decide) (by decide) (by decide)
    (fun p => rfl)
    (by
      intro p hp
      unfold sinkWitnessAgent sinkWitnessVisited
      dsimp only
      split_ifs with h
      · exact ⟨fun _ => h, fun _ => rfl⟩
      · exact ⟨fun hc => absurd hc (by decide), fun hc => absurd hc h⟩)
    rfl
    (by decide)

end Battleship
